import Mathlib

/-!
Shallow embedding of the AST rewrite pipeline of `tsconfig-type`
(`src/action.ts` and the second script variant `src/unnamed/part_000`),
together with theorems checking the natural-language specification
against it.

The TypeScript AST fragment that the passes observe is modelled by
`TypeNode`, `TypeElement`, `Statement` and `SourceFile`.  Each rewrite
pass of the source is translated into a family of mutually recursive
Lean functions, one per syntactic category, mirroring exactly the
`ts.visitEachChild` recursion structure of the source: the visitor of
`visitEachChild` is applied to each direct child, and recursion deeper
into the tree happens only through the visitor itself.
-/

namespace TsconfigType

/-- A modifier of a declaration.  The passes only ever test whether a
modifier's kind is `ts.SyntaxKind.ExportKeyword`. -/
inductive Modifier where
  | exportKeyword
  | declareKeyword
  | otherModifier (k : Nat)
deriving DecidableEq, Repr

mutual

/-- A type node.  `stringKeyword` is the unconstrained `string` type,
`unknownKeyword` the unconstrained `unknown` type, `literalString s` a
literal type node whose literal is the string literal `s`,
`literalOther k` a literal type node with any other literal kind,
`otherKeyword k` any other keyword type (e.g. `boolean`, `number`).
An index-signature parameter is represented by its optional type
annotation, the only part of a parameter that the passes observe. -/
inductive TypeNode where
  | stringKeyword
  | unknownKeyword
  | otherKeyword (k : Nat)
  | literalString (s : String)
  | literalOther (k : Nat)
  | unionType (types : List TypeNode)
  | intersectionType (types : List TypeNode)
  | parenType (ty : TypeNode)
  | arrayType (ty : TypeNode)
  | typeReference (name : String)
  | typeLiteral (members : List TypeElement)

/-- A member of an object shape (an interface body or a type literal). -/
inductive TypeElement where
  | propertySignature (name : String) (optional : Bool) (ty : Option TypeNode)
  | indexSignature (parameters : List (Option TypeNode)) (ty : TypeNode)
  | otherElement (k : Nat)

end

/-- A top-level statement of the generated declaration file.  Decorators,
type parameters and heritage clauses are carried as opaque payloads:
the passes only ever pass them through or drop them. -/
inductive Statement where
  | typeAlias (decorators : Option (List Nat)) (modifiers : Option (List Modifier))
      (name : String) (typeParams : Option (List Nat)) (ty : TypeNode)
  | interfaceDecl (decorators : Option (List Nat)) (modifiers : Option (List Modifier))
      (name : String) (typeParams : Option (List Nat)) (heritage : Option (List Nat))
      (members : List TypeElement)
  | otherStatement (k : Nat)

/-- A source file is its list of top-level statements. -/
structure SourceFile where
  statements : List Statement

/-- Kind test used by `removeWideStrings`:
`child.kind === ts.SyntaxKind.StringKeyword`. -/
def isStringKeyword : TypeNode → Bool
  | .stringKeyword => true
  | _ => false

/-- Kind test `ts.isUnionTypeNode`. -/
def isUnionNode : TypeNode → Bool
  | .unionType _ => true
  | _ => false

/-!
### Pass: `removeStandaloneUnknownRecsInUnions`

Identical in `src/action.ts` (lines 247-287) and `src/unnamed/part_000`
(lines 289-329).  On a union node it filters the members, dropping each
member that is a type literal with exactly one member where that member
is an index-signature declaration with exactly one parameter whose type
has kind `StringKeyword` (the value type of the signature is not
inspected by the source).  Each kept member is rebuilt with
`ts.visitEachChild(member, pass)`, i.e. the full pass is applied to the
member's direct children.  On any non-union node the pass is
`ts.visitEachChild(node, pass)`.
-/

/-- The filter test of `removeStandaloneUnknownRecsInUnions`: a type
literal node with exactly one member, that member an index-signature
declaration with exactly one parameter whose declared type has syntax
kind `StringKeyword`.  Note the source never looks at the signature's
value type. -/
def isStandaloneStringRec : TypeNode → Bool
  | .typeLiteral [.indexSignature [some .stringKeyword] _] => true
  | _ => false

mutual

/-- `removeStandaloneUnknownRecsInUnions` on a type node. -/
def removeRecsTy : TypeNode → TypeNode
  | .unionType ts => .unionType (removeRecsKept ts)
  | .intersectionType ts => .intersectionType (removeRecsTys ts)
  | .parenType t => .parenType (removeRecsTy t)
  | .arrayType t => .arrayType (removeRecsTy t)
  | .typeLiteral ms => .typeLiteral (removeRecsElems ms)
  | t => t

/-- The union branch: filter members with `isStandaloneStringRec`, then
rebuild each kept member with `ts.visitEachChild(member, pass)` (the
pass applied to the member's direct children, not to the member
itself). -/
def removeRecsKept : List TypeNode → List TypeNode
  | [] => []
  | t :: ts =>
      if isStandaloneStringRec t then removeRecsKept ts
      else removeRecsChild t :: removeRecsKept ts

/-- `ts.visitEachChild(member, pass)` for a kept union member: the full
pass is applied to each direct child.  In particular a member that is
itself a union node is not filtered here. -/
def removeRecsChild : TypeNode → TypeNode
  | .unionType ts => .unionType (removeRecsTys ts)
  | .intersectionType ts => .intersectionType (removeRecsTys ts)
  | .parenType t => .parenType (removeRecsTy t)
  | .arrayType t => .arrayType (removeRecsTy t)
  | .typeLiteral ms => .typeLiteral (removeRecsElems ms)
  | t => t

/-- The pass mapped over a list of type nodes. -/
def removeRecsTys : List TypeNode → List TypeNode
  | [] => []
  | t :: ts => removeRecsTy t :: removeRecsTys ts

/-- The pass mapped over shape members. -/
def removeRecsElems : List TypeElement → List TypeElement
  | [] => []
  | e :: es => removeRecsElem e :: removeRecsElems es

/-- The pass on a shape member (it reaches members through
`ts.visitEachChild`, which applies the pass to the member's type
children). -/
def removeRecsElem : TypeElement → TypeElement
  | .propertySignature n o ty => .propertySignature n o (removeRecsOptTy ty)
  | .indexSignature ps ty => .indexSignature (removeRecsParams ps) (removeRecsTy ty)
  | .otherElement k => .otherElement k

/-- The pass on an optional type annotation. -/
def removeRecsOptTy : Option TypeNode → Option TypeNode
  | none => none
  | some t => some (removeRecsTy t)

/-- The pass on index-signature parameters. -/
def removeRecsParams : List (Option TypeNode) → List (Option TypeNode)
  | [] => []
  | p :: ps => removeRecsOptTy p :: removeRecsParams ps

end

/-- The pass on a top-level statement (reached as a child of the source
file; `ts.visitEachChild` then applies the pass to the statement's type
children). -/
def removeRecsStmt : Statement → Statement
  | .typeAlias d m n tp ty => .typeAlias d m n tp (removeRecsTy ty)
  | .interfaceDecl d m n tp h ms => .interfaceDecl d m n tp h (removeRecsElems ms)
  | .otherStatement k => .otherStatement k

/-- `removeStandaloneUnknownRecsInUnions` on a whole source file. -/
def removeStandaloneUnknownRecsInUnions (sf : SourceFile) : SourceFile :=
  ⟨sf.statements.map removeRecsStmt⟩

/-!
### Pass: `removeStringMergedWithStringLiterals`

Identical in both variants (`src/action.ts` lines 189-233,
`src/unnamed/part_000` lines 231-275).  It is built from two helpers:
`intersectsWithStringLiteral` (a recursive membership test) and
`removeWideStrings` (which strips `string`-keyword children out of
union and intersection nodes and unwraps parenthesized nodes).
-/

mutual

/-- `intersectsWithStringLiteral`: the node is a literal type node whose
literal is a string literal, or a union or intersection with some member
satisfying the test recursively, or a parenthesized node whose inner
type satisfies it. -/
def intersectsWithStringLiteral : TypeNode → Bool
  | .literalString _ => true
  | .unionType ts => anyIntersectsWithStringLiteral ts
  | .intersectionType ts => anyIntersectsWithStringLiteral ts
  | .parenType t => intersectsWithStringLiteral t
  | _ => false

/-- `node.types.some(intersectsWithStringLiteral)`. -/
def anyIntersectsWithStringLiteral : List TypeNode → Bool
  | [] => false
  | t :: ts => intersectsWithStringLiteral t || anyIntersectsWithStringLiteral ts

end

mutual

/-- `removeWideStrings`: on a union or intersection node, visit the
members, dropping any whose kind is `StringKeyword` (the kind test is
made before recursing, so a parenthesized `string` is not dropped) and
recursing into the others; on a parenthesized node, recurse into the
inner type (unwrapping the parentheses); any other node is returned
unchanged. -/
def removeWideStrings : TypeNode → TypeNode
  | .unionType ts => .unionType (removeWideStringsMembers ts)
  | .intersectionType ts => .intersectionType (removeWideStringsMembers ts)
  | .parenType t => removeWideStrings t
  | t => t

/-- Member visiting of `removeWideStrings`. -/
def removeWideStringsMembers : List TypeNode → List TypeNode
  | [] => []
  | t :: ts =>
      if isStringKeyword t then removeWideStringsMembers ts
      else removeWideStrings t :: removeWideStringsMembers ts

end

mutual

/-- `removeWideStrings` never grows a node: it only drops members and
unwraps parentheses.  Used to justify termination of the recursion
`removeStringMergedWithStringLiterals(removeWideStrings(child))`. -/
theorem removeWideStrings_size : ∀ t : TypeNode, sizeOf (removeWideStrings t) ≤ sizeOf t
  | .unionType ts => by
      have h := removeWideStringsMembers_size ts
      simp only [removeWideStrings]
      simp only [TypeNode.unionType.sizeOf_spec]
      omega
  | .intersectionType ts => by
      have h := removeWideStringsMembers_size ts
      simp only [removeWideStrings]
      simp only [TypeNode.intersectionType.sizeOf_spec]
      omega
  | .parenType t => by
      have h := removeWideStrings_size t
      simp only [removeWideStrings]
      simp only [TypeNode.parenType.sizeOf_spec]
      omega
  | .stringKeyword => le_refl _
  | .unknownKeyword => le_refl _
  | .otherKeyword _ => le_refl _
  | .literalString _ => le_refl _
  | .literalOther _ => le_refl _
  | .arrayType _ => le_refl _
  | .typeReference _ => le_refl _
  | .typeLiteral _ => le_refl _

/-- List version of `removeWideStrings_size`. -/
theorem removeWideStringsMembers_size :
    ∀ ts : List TypeNode, sizeOf (removeWideStringsMembers ts) ≤ sizeOf ts
  | [] => le_refl _
  | t :: ts => by
      have h1 := removeWideStrings_size t
      have h2 := removeWideStringsMembers_size ts
      simp only [removeWideStringsMembers]
      by_cases hs : isStringKeyword t
      · simp only [hs, if_pos]
        simp only [List.cons.sizeOf_spec]
        omega
      · simp only [hs, if_neg, Bool.false_eq_true, not_false_eq_true]
        simp only [List.cons.sizeOf_spec]
        omega

end

mutual

/-- `removeStringMergedWithStringLiterals` on a type node: rebuild the
node, sending each direct child through the visitor `rsmlVisit`. -/
def rsmlTy : TypeNode → TypeNode
  | .unionType ts => .unionType (rsmlTys ts)
  | .intersectionType ts => .intersectionType (rsmlTys ts)
  | .parenType t => .parenType (rsmlVisit t)
  | .arrayType t => .arrayType (rsmlVisit t)
  | .typeLiteral ms => .typeLiteral (rsmlElems ms)
  | t => t
termination_by t => 2 * sizeOf t

/-- The visitor of `removeStringMergedWithStringLiterals`: if the child
intersects with a string literal, apply the pass to
`removeWideStrings(child)`; otherwise apply the pass to the child
itself. -/
def rsmlVisit (c : TypeNode) : TypeNode :=
  if intersectsWithStringLiteral c then rsmlTy (removeWideStrings c) else rsmlTy c
termination_by 2 * sizeOf c + 1
decreasing_by
· have h := removeWideStrings_size c
  omega
· omega

/-- The visitor mapped over union or intersection members. -/
def rsmlTys : List TypeNode → List TypeNode
  | [] => []
  | t :: ts => rsmlVisit t :: rsmlTys ts
termination_by ts => 2 * sizeOf ts

/-- The pass mapped over shape members. -/
def rsmlElems : List TypeElement → List TypeElement
  | [] => []
  | e :: es => rsmlElem e :: rsmlElems es
termination_by es => 2 * sizeOf es

/-- The pass on a shape member: its type children go through the
visitor. -/
def rsmlElem : TypeElement → TypeElement
  | .propertySignature n o ty => .propertySignature n o (rsmlOptTy ty)
  | .indexSignature ps ty => .indexSignature (rsmlParams ps) (rsmlVisit ty)
  | .otherElement k => .otherElement k
termination_by e => 2 * sizeOf e

/-- The visitor on an optional type annotation. -/
def rsmlOptTy : Option TypeNode → Option TypeNode
  | none => none
  | some t => some (rsmlVisit t)
termination_by o => 2 * sizeOf o

/-- The pass on index-signature parameters. -/
def rsmlParams : List (Option TypeNode) → List (Option TypeNode)
  | [] => []
  | p :: ps => rsmlOptTy p :: rsmlParams ps
termination_by ps => 2 * sizeOf ps

end

/-- The pass on a top-level statement. -/
def rsmlStmt : Statement → Statement
  | .typeAlias d m n tp ty => .typeAlias d m n tp (rsmlVisit ty)
  | .interfaceDecl d m n tp h ms => .interfaceDecl d m n tp h (rsmlElems ms)
  | .otherStatement k => .otherStatement k

/-- `removeStringMergedWithStringLiterals` on a whole source file. -/
def removeStringMergedWithStringLiterals (sf : SourceFile) : SourceFile :=
  ⟨sf.statements.map rsmlStmt⟩

/-!
### Pass: `unionsToIntersections` (`src/unnamed/part_000` lines 172-186)

`ts.visitEachChild(node, visitor)` where the visitor, on a union child,
returns an intersection node whose members are the union's members each
sent through `unionsToIntersections` itself (not through the visitor);
on any other child it recurses with `unionsToIntersections`.
Consequently a union node that is the argument of the function itself
(rather than a visited child) keeps its union kind.
-/

mutual

/-- `unionsToIntersections` on a type node: rebuild, sending each direct
child through the visitor `u2iVisit`. -/
def u2iTy : TypeNode → TypeNode
  | .unionType ts => .unionType (u2iTys ts)
  | .intersectionType ts => .intersectionType (u2iTys ts)
  | .parenType t => .parenType (u2iVisit t)
  | .arrayType t => .arrayType (u2iVisit t)
  | .typeLiteral ms => .typeLiteral (u2iElems ms)
  | t => t

/-- The visitor of `unionsToIntersections`: a union child is replaced by
an intersection of `child.types.map(unionsToIntersections)`; any other
child recurses with `unionsToIntersections`. -/
def u2iVisit : TypeNode → TypeNode
  | .unionType ts => .intersectionType (u2iTysTop ts)
  | t => u2iTy t

/-- `child.types.map(type => unionsToIntersections(ctx)(type))`: the
members of a converted union are sent through `unionsToIntersections`
directly, so a member that is itself a union keeps its union kind. -/
def u2iTysTop : List TypeNode → List TypeNode
  | [] => []
  | t :: ts => u2iTy t :: u2iTysTop ts

/-- The visitor mapped over the members of a node being rebuilt. -/
def u2iTys : List TypeNode → List TypeNode
  | [] => []
  | t :: ts => u2iVisit t :: u2iTys ts

/-- The pass mapped over shape members. -/
def u2iElems : List TypeElement → List TypeElement
  | [] => []
  | e :: es => u2iElem e :: u2iElems es

/-- The pass on a shape member: type children go through the visitor. -/
def u2iElem : TypeElement → TypeElement
  | .propertySignature n o ty => .propertySignature n o (u2iOptTy ty)
  | .indexSignature ps ty => .indexSignature (u2iParams ps) (u2iVisit ty)
  | .otherElement k => .otherElement k

/-- The visitor on an optional type annotation. -/
def u2iOptTy : Option TypeNode → Option TypeNode
  | none => none
  | some t => some (u2iVisit t)

/-- The pass on index-signature parameters. -/
def u2iParams : List (Option TypeNode) → List (Option TypeNode)
  | [] => []
  | p :: ps => u2iOptTy p :: u2iParams ps

end

/-!
### Renaming passes

`renameTsconfigTypeAndRemoveOtherExports` (`src/action.ts` lines
156-179) renames every top-level type alias to `Tsconfig`, keeping its
decorators, modifiers, type parameters and type; it rebuilds every
top-level interface keeping only the `ExportKeyword` subset of its
modifiers; every other statement passes through.  The variant
`renameTsconfigTypeForceIntersectionsRemoveOtherExports`
(`src/unnamed/part_000` lines 195-221) additionally sends the alias's
type through `unionsToIntersections`.  Neither visitor recurses into
statements beyond what is described.
-/

/-- Modifier kind test `modifier.kind === ts.SyntaxKind.ExportKeyword`. -/
def isExportModifier : Modifier → Bool
  | .exportKeyword => true
  | _ => false

/-- Statement visitor of `renameTsconfigTypeAndRemoveOtherExports`. -/
def renameStmtPlain : Statement → Statement
  | .typeAlias d m _ tp ty => .typeAlias d m "Tsconfig" tp ty
  | .interfaceDecl d m n tp h ms =>
      .interfaceDecl d (m.map (List.filter isExportModifier)) n tp h ms
  | .otherStatement k => .otherStatement k

/-- `renameTsconfigTypeAndRemoveOtherExports` on a source file. -/
def renameTsconfigTypeAndRemoveOtherExports (sf : SourceFile) : SourceFile :=
  ⟨sf.statements.map renameStmtPlain⟩

/-- Statement visitor of
`renameTsconfigTypeForceIntersectionsRemoveOtherExports`: as the plain
variant, but the alias's type is first sent through
`unionsToIntersections` (applied to the type node itself, so the type
node's own union kind, if any, is preserved). -/
def renameStmtForce : Statement → Statement
  | .typeAlias d m _ tp ty => .typeAlias d m "Tsconfig" tp (u2iTy ty)
  | .interfaceDecl d m n tp h ms =>
      .interfaceDecl d (m.map (List.filter isExportModifier)) n tp h ms
  | .otherStatement k => .otherStatement k

/-- `renameTsconfigTypeForceIntersectionsRemoveOtherExports` on a source
file. -/
def renameTsconfigTypeForceIntersectionsRemoveOtherExports (sf : SourceFile) : SourceFile :=
  ⟨sf.statements.map renameStmtForce⟩

/-!
### Pass: `attachSchemaPropToTopLevel` (`src/unnamed/part_000` 157-168)

Every top-level interface named `CompilerOptionsDefinition` receives a
new first member: an optional property `$schema` whose type is the
string-literal type `https://json.schemastore.org/tsconfig.json`.  All
original members follow it; every other statement is returned
unchanged.
-/

/-- The property signature created by `attachSchemaPropToTopLevel`. -/
def schemaProp : TypeElement :=
  .propertySignature "$schema" true
    (some (.literalString "https://json.schemastore.org/tsconfig.json"))

/-- Statement visitor of `attachSchemaPropToTopLevel`. -/
def attachStmt : Statement → Statement
  | .interfaceDecl d m n tp h ms =>
      if n = "CompilerOptionsDefinition" then
        .interfaceDecl d m n tp h (schemaProp :: ms)
      else
        .interfaceDecl d m n tp h ms
  | s => s

/-- `attachSchemaPropToTopLevel` on a source file. -/
def attachSchemaPropToTopLevel (sf : SourceFile) : SourceFile :=
  ⟨sf.statements.map attachStmt⟩

/-!
### Pass: `removeUnknownIndexSignatures`

Present in both variants; the member filtering (a `reduce` over
`child.members`) is identical, but the interface rebuild differs:
`src/unnamed/part_000` (lines 340-375) passes the interface's
decorators, modifiers, type parameters and heritage clauses through,
while `src/action.ts` (lines 298-326) passes `undefined` for all four.
A member is dropped when it is an index-signature declaration whose
first parameter's type has kind `StringKeyword`, whose value type has
kind `UnknownKeyword`, and which has a sibling member
(`child.members[i - 1] || child.members[i + 1]`, evaluated against the
original member list).  Kept members are sent through the pass itself.
-/

/-- The drop test of `removeUnknownIndexSignatures` (without the
sibling condition): an index-signature declaration whose first
parameter's type has kind `StringKeyword` and whose value type has kind
`UnknownKeyword`. -/
def isUnknownStringIndexSig : TypeElement → Bool
  | .indexSignature (some .stringKeyword :: _) .unknownKeyword => true
  | _ => false

mutual

/-- `removeUnknownIndexSignatures` on a type node: rebuild, sending each
direct child through the visitor `uisVisit`. -/
def uisTy : TypeNode → TypeNode
  | .unionType ts => .unionType (uisTysVisit ts)
  | .intersectionType ts => .intersectionType (uisTysVisit ts)
  | .parenType t => .parenType (uisVisit t)
  | .arrayType t => .arrayType (uisVisit t)
  | .typeLiteral ms => .typeLiteral (uisElems ms)
  | t => t

/-- The visitor of `removeUnknownIndexSignatures`: a type-literal child
has its member list rebuilt by the filtering `reduce`; any other type
child recurses with the pass. -/
def uisVisit : TypeNode → TypeNode
  | .typeLiteral ms => .typeLiteral (uisFilterMembers ms 0 ms)
  | t => uisTy t

/-- The visitor mapped over a list of type nodes. -/
def uisTysVisit : List TypeNode → List TypeNode
  | [] => []
  | t :: ts => uisVisit t :: uisTysVisit ts

/-- The filtering `reduce` over a shape's members.  `orig` is the full
original member list and `i` the index of the current member; the
sibling test `child.members[i - 1] || child.members[i + 1]` is the
disjunction `0 < i` (JavaScript `members[-1]` is `undefined`) or
`i + 1 < orig.length`.  Kept members are sent through the pass. -/
def uisFilterMembers (orig : List TypeElement) : Nat → List TypeElement → List TypeElement
  | _, [] => []
  | i, e :: es =>
      if isUnknownStringIndexSig e && (decide (0 < i) || decide (i + 1 < orig.length)) then
        uisFilterMembers orig (i + 1) es
      else
        uisElem e :: uisFilterMembers orig (i + 1) es

/-- The pass mapped over shape members (used when a whole type literal
is the argument of the pass itself rather than a visited child, in
which case no filtering happens). -/
def uisElems : List TypeElement → List TypeElement
  | [] => []
  | e :: es => uisElem e :: uisElems es

/-- The pass on a shape member: its type children go through the
visitor. -/
def uisElem : TypeElement → TypeElement
  | .propertySignature n o ty => .propertySignature n o (uisOptTy ty)
  | .indexSignature ps ty => .indexSignature (uisParams ps) (uisVisit ty)
  | .otherElement k => .otherElement k

/-- The visitor on an optional type annotation. -/
def uisOptTy : Option TypeNode → Option TypeNode
  | none => none
  | some t => some (uisVisit t)

/-- The pass on index-signature parameters. -/
def uisParams : List (Option TypeNode) → List (Option TypeNode)
  | [] => []
  | p :: ps => uisOptTy p :: uisParams ps

end

/-- Member filtering of `removeUnknownIndexSignatures` for a visited
shape, starting at index `0` of the original list. -/
def uisMembers (ms : List TypeElement) : List TypeElement :=
  uisFilterMembers ms 0 ms

/-- Statement visitor of the `src/unnamed/part_000` variant of
`removeUnknownIndexSignatures`: an interface keeps its decorators,
modifiers, type parameters and heritage clauses and has its members
filtered; other statements recurse with the pass. -/
def uisStmtKeep : Statement → Statement
  | .interfaceDecl d m n tp h ms => .interfaceDecl d m n tp h (uisMembers ms)
  | .typeAlias d m n tp ty => .typeAlias d m n tp (uisVisit ty)
  | .otherStatement k => .otherStatement k

/-- Statement visitor of the `src/action.ts` variant of
`removeUnknownIndexSignatures`: the interface rebuild passes
`undefined` for decorators, modifiers, type parameters and heritage
clauses. -/
def uisStmtStrip : Statement → Statement
  | .interfaceDecl _ _ n _ _ ms => .interfaceDecl none none n none none (uisMembers ms)
  | .typeAlias d m n tp ty => .typeAlias d m n tp (uisVisit ty)
  | .otherStatement k => .otherStatement k

/-- `removeUnknownIndexSignatures` (`src/unnamed/part_000` variant) on a
source file. -/
def removeUnknownIndexSignaturesKeep (sf : SourceFile) : SourceFile :=
  ⟨sf.statements.map uisStmtKeep⟩

/-- `removeUnknownIndexSignatures` (`src/action.ts` variant) on a source
file. -/
def removeUnknownIndexSignaturesStrip (sf : SourceFile) : SourceFile :=
  ⟨sf.statements.map uisStmtStrip⟩

/-!
### The composed transformer

`transformer` (`src/action.ts` lines 139-147, `src/unnamed/part_000`
lines 144-152) reduces the list of transformer factories over the
source file, checking `ts.isSourceFile` after every pass and throwing
when the check fails.  The passes are typed `ts.Node → ts.Node`, so the
fold is modelled on a `Node` wrapper that distinguishes the syntactic
categories.
-/

/-- A `ts.Node` as far as the transformer is concerned. -/
inductive Node where
  | sourceFile (sf : SourceFile)
  | stmtNode (s : Statement)
  | tyNode (t : TypeNode)
  | elemNode (e : TypeElement)

/-- `ts.isSourceFile`. -/
def isSourceFileNode : Node → Bool
  | .sourceFile _ => true
  | _ => false

/-- Lift a pass given per-category to a pass on `Node`. -/
def liftPass (fsf : SourceFile → SourceFile) (fs : Statement → Statement)
    (ft : TypeNode → TypeNode) (fe : TypeElement → TypeElement) : Node → Node
  | .sourceFile sf => .sourceFile (fsf sf)
  | .stmtNode s => .stmtNode (fs s)
  | .tyNode t => .tyNode (ft t)
  | .elemNode e => .elemNode (fe e)

/-- `removeStandaloneUnknownRecsInUnions` as a `Node` pass. -/
def removeRecsNode : Node → Node :=
  liftPass removeStandaloneUnknownRecsInUnions removeRecsStmt removeRecsTy removeRecsElem

/-- `removeStringMergedWithStringLiterals` as a `Node` pass. -/
def rsmlNode : Node → Node :=
  liftPass removeStringMergedWithStringLiterals rsmlStmt rsmlTy rsmlElem

/-- `renameTsconfigTypeAndRemoveOtherExports` as a `Node` pass (its
visitor only acts on children of a source file, so on the other
categories the pass rebuilds the node with unchanged children). -/
def renamePlainNode : Node → Node :=
  liftPass renameTsconfigTypeAndRemoveOtherExports id id id

/-- `renameTsconfigTypeForceIntersectionsRemoveOtherExports` as a `Node`
pass. -/
def renameForceNode : Node → Node :=
  liftPass renameTsconfigTypeForceIntersectionsRemoveOtherExports id id id

/-- `attachSchemaPropToTopLevel` as a `Node` pass. -/
def attachNode : Node → Node :=
  liftPass attachSchemaPropToTopLevel id id id

/-- `removeUnknownIndexSignatures` (`src/action.ts` variant) as a `Node`
pass. -/
def uisStripNode : Node → Node :=
  liftPass removeUnknownIndexSignaturesStrip uisStmtStrip uisTy uisElem

/-- `removeUnknownIndexSignatures` (`src/unnamed/part_000` variant) as a
`Node` pass. -/
def uisKeepNode : Node → Node :=
  liftPass removeUnknownIndexSignaturesKeep uisStmtKeep uisTy uisElem

/-- `getTransformerFactories()` of `src/action.ts` (lines 128-136). -/
def factoriesPlain : List (Node → Node) :=
  [renamePlainNode, removeRecsNode, rsmlNode, uisStripNode]

/-- `getTransformerFactories()` of `src/unnamed/part_000` (lines
139-141). -/
def factoriesForce : List (Node → Node) :=
  [attachNode, renameForceNode, removeRecsNode, rsmlNode, uisKeepNode]

/-- The `reduce` of `transformer`: apply each pass in order, and after
each pass check `ts.isSourceFile(nextResult)`, throwing (modelled by
`Except.error`) when the check fails. -/
def runPasses : List (Node → Node) → Node → Except Unit Node
  | [], n => .ok n
  | p :: ps, n =>
      match p n with
      | .sourceFile sf => runPasses ps (.sourceFile sf)
      | _ => .error ()

/-- The `src/action.ts` transformer. -/
def transformerPlain (sf : SourceFile) : Except Unit Node :=
  runPasses factoriesPlain (.sourceFile sf)

/-- The `src/unnamed/part_000` transformer. -/
def transformerForce (sf : SourceFile) : Except Unit Node :=
  runPasses factoriesForce (.sourceFile sf)

/-- The `src/action.ts` pipeline as the plain composition of its passes
in order. -/
def pipelinePlain (sf : SourceFile) : SourceFile :=
  removeUnknownIndexSignaturesStrip
    (removeStringMergedWithStringLiterals
      (removeStandaloneUnknownRecsInUnions
        (renameTsconfigTypeAndRemoveOtherExports sf)))

/-- The `src/unnamed/part_000` pipeline as the plain composition of its
passes in order. -/
def pipelineForce (sf : SourceFile) : SourceFile :=
  removeUnknownIndexSignaturesKeep
    (removeStringMergedWithStringLiterals
      (removeStandaloneUnknownRecsInUnions
        (renameTsconfigTypeForceIntersectionsRemoveOtherExports
          (attachSchemaPropToTopLevel sf))))

/-!
### The release tail of `main`

`src/unnamed/part_000` lines 76-135 (and `src/action.ts` lines 84-124):
after formatting, when not in dev mode the md5 checksum of the
formatted source is compared with the stored one; on equality the run
throws before anything is written.  Otherwise the new checksum record
is written, then the output declaration file, then (when not in dev
mode) the release commands run.  The persistent effects are modelled as
an ordered trace; `Except.error` carries no trace, reflecting that the
throw happens before any write.  The checksum itself is an input (the
digest function is outside the model).
-/

/-- A persisted side effect of the release tail, in execution order. -/
inductive Effect where
  | writeChecksumFile (checksum : String)
  | writeOutputFile (content : String)
  | gitConfigEmail
  | gitConfigName
  | gitAdd
  | gitCommit
  | standardVersionRun
  | gitPushFollowTags
  | npmPublish
deriving DecidableEq, Repr

/-- The release tail of `main` in `src/unnamed/part_000`. -/
def mainTailForce (devMode : Bool) (checksum previousChecksum source : String) :
    Except String (List Effect) :=
  if !devMode ∧ checksum = previousChecksum then
    .error "Already released this version."
  else
    .ok ((if !devMode then [Effect.writeChecksumFile checksum] else []) ++
      [Effect.writeOutputFile source] ++
      (if !devMode then
        [Effect.gitConfigEmail, Effect.gitConfigName, Effect.gitAdd, Effect.gitCommit,
          Effect.standardVersionRun, Effect.gitPushFollowTags]
      else []))

/-- The release tail of `main` in `src/action.ts` (no git identity
configuration; the final command also runs `npm publish`). -/
def mainTailPlain (devMode : Bool) (checksum previousChecksum source : String) :
    Except String (List Effect) :=
  if !devMode ∧ checksum = previousChecksum then
    .error "Already released this version."
  else
    .ok ((if !devMode then [Effect.writeChecksumFile checksum] else []) ++
      [Effect.writeOutputFile source] ++
      (if !devMode then
        [Effect.gitAdd, Effect.gitCommit, Effect.standardVersionRun,
          Effect.gitPushFollowTags, Effect.npmPublish]
      else []))

/-!
### Specification-side predicates and observers

These definitions follow the wording of the specification and of the
claims; the theorems below compare them with the functions translated
from the source.
-/

/-- The shape the specification describes for pass 3: an object-type
literal with exactly one member, that member a string-keyed index
signature whose value type is the unconstrained `unknown` type. -/
def isSpecUnknownRec : TypeNode → Bool
  | .typeLiteral [.indexSignature [some .stringKeyword] .unknownKeyword] => true
  | _ => false

mutual

/-- No union node appears as a direct member of a union node.  Trees
produced by the TypeScript parser satisfy this (the parser flattens
unions and otherwise requires parentheses). -/
def noNestedUnionsTy : TypeNode → Bool
  | .unionType ts => noNestedUnionsMembers ts && noNestedUnionsTys ts
  | .intersectionType ts => noNestedUnionsTys ts
  | .parenType t => noNestedUnionsTy t
  | .arrayType t => noNestedUnionsTy t
  | .typeLiteral ms => noNestedUnionsElems ms
  | _ => true

/-- No member of this union member list is itself a union. -/
def noNestedUnionsMembers : List TypeNode → Bool
  | [] => true
  | t :: ts => !isUnionNode t && noNestedUnionsMembers ts

/-- List version of `noNestedUnionsTy`. -/
def noNestedUnionsTys : List TypeNode → Bool
  | [] => true
  | t :: ts => noNestedUnionsTy t && noNestedUnionsTys ts

/-- Member version of `noNestedUnionsTy`. -/
def noNestedUnionsElems : List TypeElement → Bool
  | [] => true
  | e :: es => noNestedUnionsElem e && noNestedUnionsElems es

/-- Element version of `noNestedUnionsTy`. -/
def noNestedUnionsElem : TypeElement → Bool
  | .propertySignature _ _ none => true
  | .propertySignature _ _ (some t) => noNestedUnionsTy t
  | .indexSignature ps ty => noNestedUnionsParams ps && noNestedUnionsTy ty
  | .otherElement _ => true

/-- Parameter version of `noNestedUnionsTy`. -/
def noNestedUnionsParams : List (Option TypeNode) → Bool
  | [] => true
  | none :: ps => noNestedUnionsParams ps
  | some t :: ps => noNestedUnionsTy t && noNestedUnionsParams ps

end

mutual

/-- The specification's reading of pass 3 (with the filter test the
source actually uses): in every union, remove exactly the members
matching the filter test and keep the others, applying the same rule
recursively inside the kept members. -/
def specRemoveRecsTy : TypeNode → TypeNode
  | .unionType ts => .unionType (specRemoveRecsMembers ts)
  | .intersectionType ts => .intersectionType (specRemoveRecsTys ts)
  | .parenType t => .parenType (specRemoveRecsTy t)
  | .arrayType t => .arrayType (specRemoveRecsTy t)
  | .typeLiteral ms => .typeLiteral (specRemoveRecsElems ms)
  | t => t

/-- Union members: drop matching members, recurse into kept ones. -/
def specRemoveRecsMembers : List TypeNode → List TypeNode
  | [] => []
  | t :: ts =>
      if isStandaloneStringRec t then specRemoveRecsMembers ts
      else specRemoveRecsTy t :: specRemoveRecsMembers ts

/-- List version of `specRemoveRecsTy`. -/
def specRemoveRecsTys : List TypeNode → List TypeNode
  | [] => []
  | t :: ts => specRemoveRecsTy t :: specRemoveRecsTys ts

/-- Member version of `specRemoveRecsTy`. -/
def specRemoveRecsElems : List TypeElement → List TypeElement
  | [] => []
  | e :: es => specRemoveRecsElem e :: specRemoveRecsElems es

/-- Element version of `specRemoveRecsTy`. -/
def specRemoveRecsElem : TypeElement → TypeElement
  | .propertySignature n o ty => .propertySignature n o (specRemoveRecsOptTy ty)
  | .indexSignature ps ty => .indexSignature (specRemoveRecsParams ps) (specRemoveRecsTy ty)
  | .otherElement k => .otherElement k

/-- Optional-type version of `specRemoveRecsTy`. -/
def specRemoveRecsOptTy : Option TypeNode → Option TypeNode
  | none => none
  | some t => some (specRemoveRecsTy t)

/-- Parameter version of `specRemoveRecsTy`. -/
def specRemoveRecsParams : List (Option TypeNode) → List (Option TypeNode)
  | [] => []
  | p :: ps => specRemoveRecsOptTy p :: specRemoveRecsParams ps

end

mutual

/-- The specification's reading of the forced-intersection rewrite:
every union node, including the node itself, is rewritten bottom-up
into an intersection node with the same member types. -/
def specConvAllTy : TypeNode → TypeNode
  | .unionType ts => .intersectionType (specConvAllTys ts)
  | .intersectionType ts => .intersectionType (specConvAllTys ts)
  | .parenType t => .parenType (specConvAllTy t)
  | .arrayType t => .arrayType (specConvAllTy t)
  | .typeLiteral ms => .typeLiteral (specConvAllElems ms)
  | t => t

/-- List version of `specConvAllTy`. -/
def specConvAllTys : List TypeNode → List TypeNode
  | [] => []
  | t :: ts => specConvAllTy t :: specConvAllTys ts

/-- Member version of `specConvAllTy`. -/
def specConvAllElems : List TypeElement → List TypeElement
  | [] => []
  | e :: es => specConvAllElem e :: specConvAllElems es

/-- Element version of `specConvAllTy`. -/
def specConvAllElem : TypeElement → TypeElement
  | .propertySignature n o ty => .propertySignature n o (specConvAllOptTy ty)
  | .indexSignature ps ty => .indexSignature (specConvAllParams ps) (specConvAllTy ty)
  | .otherElement k => .otherElement k

/-- Optional-type version of `specConvAllTy`. -/
def specConvAllOptTy : Option TypeNode → Option TypeNode
  | none => none
  | some t => some (specConvAllTy t)

/-- Parameter version of `specConvAllTy`. -/
def specConvAllParams : List (Option TypeNode) → List (Option TypeNode)
  | [] => []
  | p :: ps => specConvAllOptTy p :: specConvAllParams ps

end

mutual

/-- The tree contains no union node anywhere. -/
def unionFreeTy : TypeNode → Bool
  | .unionType _ => false
  | .intersectionType ts => unionFreeTys ts
  | .parenType t => unionFreeTy t
  | .arrayType t => unionFreeTy t
  | .typeLiteral ms => unionFreeElems ms
  | _ => true

/-- List version of `unionFreeTy`. -/
def unionFreeTys : List TypeNode → Bool
  | [] => true
  | t :: ts => unionFreeTy t && unionFreeTys ts

/-- Member version of `unionFreeTy`. -/
def unionFreeElems : List TypeElement → Bool
  | [] => true
  | e :: es => unionFreeElem e && unionFreeElems es

/-- Element version of `unionFreeTy`. -/
def unionFreeElem : TypeElement → Bool
  | .propertySignature _ _ none => true
  | .propertySignature _ _ (some t) => unionFreeTy t
  | .indexSignature ps ty => unionFreeParams ps && unionFreeTy ty
  | .otherElement _ => true

/-- Parameter version of `unionFreeTy`. -/
def unionFreeParams : List (Option TypeNode) → Bool
  | [] => true
  | none :: ps => unionFreeParams ps
  | some t :: ps => unionFreeTy t && unionFreeParams ps

end

/-- Child test: a literal type node whose literal is a string literal. -/
def isLiteralStringNode : TypeNode → Bool
  | .literalString _ => true
  | _ => false

mutual

/-- The tree contains no parenthesized type node anywhere. -/
def noParensTy : TypeNode → Bool
  | .parenType _ => false
  | .unionType ts => noParensTys ts
  | .intersectionType ts => noParensTys ts
  | .arrayType t => noParensTy t
  | .typeLiteral ms => noParensElems ms
  | _ => true

/-- List version of `noParensTy`. -/
def noParensTys : List TypeNode → Bool
  | [] => true
  | t :: ts => noParensTy t && noParensTys ts

/-- Member version of `noParensTy`. -/
def noParensElems : List TypeElement → Bool
  | [] => true
  | e :: es => noParensElem e && noParensElems es

/-- Element version of `noParensTy`. -/
def noParensElem : TypeElement → Bool
  | .propertySignature _ _ none => true
  | .propertySignature _ _ (some t) => noParensTy t
  | .indexSignature ps ty => noParensParams ps && noParensTy ty
  | .otherElement _ => true

/-- Parameter version of `noParensTy`. -/
def noParensParams : List (Option TypeNode) → Bool
  | [] => true
  | none :: ps => noParensParams ps
  | some t :: ps => noParensTy t && noParensParams ps

end

mutual

/-- The cleanliness property of pass 2's output, as the specification
states it: no union or intersection node anywhere in the tree has both
a string-literal direct member and an unconstrained-`string` direct
member. -/
def cleanTy : TypeNode → Bool
  | .unionType ts =>
      !(ts.any isLiteralStringNode && ts.any isStringKeyword) && cleanTys ts
  | .intersectionType ts =>
      !(ts.any isLiteralStringNode && ts.any isStringKeyword) && cleanTys ts
  | .parenType t => cleanTy t
  | .arrayType t => cleanTy t
  | .typeLiteral ms => cleanElems ms
  | _ => true

/-- List version of `cleanTy`. -/
def cleanTys : List TypeNode → Bool
  | [] => true
  | t :: ts => cleanTy t && cleanTys ts

/-- Member version of `cleanTy`. -/
def cleanElems : List TypeElement → Bool
  | [] => true
  | e :: es => cleanElem e && cleanElems es

/-- Element version of `cleanTy`. -/
def cleanElem : TypeElement → Bool
  | .propertySignature _ _ none => true
  | .propertySignature _ _ (some t) => cleanTy t
  | .indexSignature ps ty => cleanParams ps && cleanTy ty
  | .otherElement _ => true

/-- Parameter version of `cleanTy`. -/
def cleanParams : List (Option TypeNode) → Bool
  | [] => true
  | none :: ps => cleanParams ps
  | some t :: ps => cleanTy t && cleanParams ps

end

mutual

/-- All string-literal texts occurring in the tree, in order. -/
def literalsTy : TypeNode → List String
  | .literalString s => [s]
  | .unionType ts => literalsTys ts
  | .intersectionType ts => literalsTys ts
  | .parenType t => literalsTy t
  | .arrayType t => literalsTy t
  | .typeLiteral ms => literalsElems ms
  | _ => []

/-- List version of `literalsTy`. -/
def literalsTys : List TypeNode → List String
  | [] => []
  | t :: ts => literalsTy t ++ literalsTys ts

/-- Member version of `literalsTy`. -/
def literalsElems : List TypeElement → List String
  | [] => []
  | e :: es => literalsElem e ++ literalsElems es

/-- Element version of `literalsTy`. -/
def literalsElem : TypeElement → List String
  | .propertySignature _ _ none => []
  | .propertySignature _ _ (some t) => literalsTy t
  | .indexSignature ps ty => literalsParams ps ++ literalsTy ty
  | .otherElement _ => []

/-- Parameter version of `literalsTy`. -/
def literalsParams : List (Option TypeNode) → List String
  | [] => []
  | none :: ps => literalsParams ps
  | some t :: ps => literalsTy t ++ literalsParams ps

end

/-- Source-file versions of the predicates, over statements. -/
def noParensStmt : Statement → Bool
  | .typeAlias _ _ _ _ ty => noParensTy ty
  | .interfaceDecl _ _ _ _ _ ms => noParensElems ms
  | .otherStatement _ => true

/-- Source-file version of `noParensTy`. -/
def noParensSF (sf : SourceFile) : Bool :=
  sf.statements.all noParensStmt

/-- Statement version of `cleanTy`. -/
def cleanStmt : Statement → Bool
  | .typeAlias _ _ _ _ ty => cleanTy ty
  | .interfaceDecl _ _ _ _ _ ms => cleanElems ms
  | .otherStatement _ => true

/-- Source-file version of `cleanTy`. -/
def cleanSF (sf : SourceFile) : Bool :=
  sf.statements.all cleanStmt

/-- Statement version of `literalsTy`. -/
def literalsStmt : Statement → List String
  | .typeAlias _ _ _ _ ty => literalsTy ty
  | .interfaceDecl _ _ _ _ _ ms => literalsElems ms
  | .otherStatement _ => []

/-- Source-file version of `literalsTy`. -/
def literalsSF (sf : SourceFile) : List String :=
  sf.statements.flatMap literalsStmt

/-- Statement version of `noNestedUnionsTy`. -/
def noNestedUnionsStmt : Statement → Bool
  | .typeAlias _ _ _ _ ty => noNestedUnionsTy ty
  | .interfaceDecl _ _ _ _ _ ms => noNestedUnionsElems ms
  | .otherStatement _ => true

/-- Source-file version of `noNestedUnionsTy`. -/
def noNestedUnionsSF (sf : SourceFile) : Bool :=
  sf.statements.all noNestedUnionsStmt

/-- Statement version of `specRemoveRecsTy`. -/
def specRemoveRecsStmt : Statement → Statement
  | .typeAlias d m n tp ty => .typeAlias d m n tp (specRemoveRecsTy ty)
  | .interfaceDecl d m n tp h ms => .interfaceDecl d m n tp h (specRemoveRecsElems ms)
  | .otherStatement k => .otherStatement k

/-- Source-file version of `specRemoveRecsTy`. -/
def specRemoveRecsSF (sf : SourceFile) : SourceFile :=
  ⟨sf.statements.map specRemoveRecsStmt⟩

/-- The amended reading of the forced-intersection rewrite as applied to
the root alias's definition node: every union strictly below the node is
rewritten, while the node itself keeps its own kind (so a definition
that is itself a union stays a union, with converted members). -/
def specTopConvTy : TypeNode → TypeNode
  | .unionType ts => .unionType (specConvAllTys ts)
  | t => specConvAllTy t

/-- A member that is the unconstrained `string` type, possibly wrapped
in parentheses (which the specification treats as transparent). -/
def isTransparentWideString : TypeNode → Bool
  | .stringKeyword => true
  | .parenType t => isTransparentWideString t
  | _ => false

/-- Observer: a statement's declared name. -/
def stmtName : Statement → Option String
  | .typeAlias _ _ n _ _ => some n
  | .interfaceDecl _ _ n _ _ _ => some n
  | .otherStatement _ => none

/-- Observer: a statement's modifier list. -/
def stmtModifiers : Statement → Option (List Modifier)
  | .typeAlias _ m _ _ _ => m
  | .interfaceDecl _ m _ _ _ _ => m
  | .otherStatement _ => none

/-- Observer: a statement's decorators. -/
def stmtDecorators : Statement → Option (List Nat)
  | .typeAlias d _ _ _ _ => d
  | .interfaceDecl d _ _ _ _ _ => d
  | .otherStatement _ => none

/-- Observer: a statement's type parameters. -/
def stmtTypeParams : Statement → Option (List Nat)
  | .typeAlias _ _ _ tp _ => tp
  | .interfaceDecl _ _ _ tp _ _ => tp
  | .otherStatement _ => none

/-- Observer: an interface's heritage clauses. -/
def stmtHeritage : Statement → Option (List Nat)
  | .interfaceDecl _ _ _ _ h _ => h
  | _ => none

/-- Observer: an interface's member list. -/
def stmtMembers : Statement → Option (List TypeElement)
  | .interfaceDecl _ _ _ _ _ ms => some ms
  | _ => none

/-- Observer: is the statement an interface declaration. -/
def isInterfaceStmt : Statement → Bool
  | .interfaceDecl _ _ _ _ _ _ => true
  | _ => false

/-!
### Claim C5 — root renaming and export pruning
-/

/-- The per-statement behaviour the specification ascribes to the
renaming pass: a type alias keeps everything but its declared name,
which becomes `Tsconfig`; an interface keeps everything but its modifier
list, which is restricted to its export keywords; any other statement is
returned unchanged. -/
def renameSpecRel (s out : Statement) : Prop :=
  match s with
  | .typeAlias d m _ tp ty => out = .typeAlias d m "Tsconfig" tp ty
  | .interfaceDecl d m n tp h ms =>
      out = .interfaceDecl d (m.map (List.filter isExportModifier)) n tp h ms
  | .otherStatement k => out = .otherStatement k

/-- As `renameSpecRel`, for the force-intersections variant, which also
rewrites the alias's type (the claim only fixes the renaming, so the
relation leaves the output type existential). -/
def renameForceSpecRel (s out : Statement) : Prop :=
  match s with
  | .typeAlias d m _ tp _ => ∃ ty2, out = .typeAlias d m "Tsconfig" tp ty2
  | .interfaceDecl d m n tp h ms =>
      out = .interfaceDecl d (m.map (List.filter isExportModifier)) n tp h ms
  | .otherStatement k => out = .otherStatement k

/-- C5.  In both variants the renaming pass renames every top-level type
alias to the fixed public name `Tsconfig`; every top-level interface
declaration retains exactly the export-keyword subset of its original
modifiers with its decorators, name, type parameters, heritage clauses
and members unchanged; and every other top-level statement passes
through unchanged.  In the plain (`src/action.ts`) variant the alias
additionally keeps its decorators, modifiers, type parameters and type
unchanged. -/
theorem rename_pass_spec (sf : SourceFile) :
    List.Forall₂ renameSpecRel sf.statements
      (renameTsconfigTypeAndRemoveOtherExports sf).statements ∧
    List.Forall₂ renameForceSpecRel sf.statements
      (renameTsconfigTypeForceIntersectionsRemoveOtherExports sf).statements := by
  constructor
  · simp only [renameTsconfigTypeAndRemoveOtherExports]
    rw [List.forall₂_map_right_iff]
    rw [List.forall₂_same]
    intro s _
    cases s <;> simp [renameSpecRel, renameStmtPlain]
  · simp only [renameTsconfigTypeForceIntersectionsRemoveOtherExports]
    rw [List.forall₂_map_right_iff]
    rw [List.forall₂_same]
    intro s _
    cases s <;> simp [renameForceSpecRel, renameStmtForce]

/-!
### Claim C7 — `$schema` property injection
-/

/-- The per-statement behaviour the specification ascribes to
`attachSchemaPropToTopLevel`: an interface named
`CompilerOptionsDefinition` gains, as its new first member, an optional
property named `$schema` of string-literal type
`https://json.schemastore.org/tsconfig.json`, with all original members
after it and everything else unchanged; every other statement is
returned unchanged. -/
def attachSpecRel (s out : Statement) : Prop :=
  match s with
  | .interfaceDecl d m n tp h ms =>
      if n = "CompilerOptionsDefinition" then
        out = .interfaceDecl d m n tp h
          (.propertySignature "$schema" true
            (some (.literalString "https://json.schemastore.org/tsconfig.json")) :: ms)
      else out = s
  | _ => out = s

/-- C7.  `attachSchemaPropToTopLevel` adds exactly one optional
`$schema` property, typed with the string-literal
`https://json.schemastore.org/tsconfig.json`, as the first member of
every top-level interface named `CompilerOptionsDefinition`, keeps that
interface's original members after it and its other fields unchanged,
and leaves every other top-level statement unchanged. -/
theorem attachSchemaProp_spec (sf : SourceFile) :
    List.Forall₂ attachSpecRel sf.statements
      (attachSchemaPropToTopLevel sf).statements := by
  simp only [attachSchemaPropToTopLevel]
  rw [List.forall₂_map_right_iff]
  rw [List.forall₂_same]
  intro s _
  cases s with
  | interfaceDecl d m n tp h ms =>
      by_cases hn : n = "CompilerOptionsDefinition" <;>
        simp [attachSpecRel, attachStmt, hn, schemaProp]
  | typeAlias d m n tp ty => simp [attachSpecRel, attachStmt]
  | otherStatement k => simp [attachSpecRel, attachStmt]

/-!
### Claim C8 — the structural invariant check of the transformer
-/

/-- C8.  Every configured pass maps a source-file node to a source-file
node, so the `ts.isSourceFile` check performed after every pass never
fails: on every input both transformers complete without error, and the
result is the source-file node obtained by composing the passes in
order. -/
theorem transformer_no_error (sf : SourceFile) :
    transformerPlain sf = .ok (.sourceFile (pipelinePlain sf)) ∧
    transformerForce sf = .ok (.sourceFile (pipelineForce sf)) ∧
    (∀ sf2, isSourceFileNode (renamePlainNode (.sourceFile sf2)) = true) ∧
    (∀ sf2, isSourceFileNode (renameForceNode (.sourceFile sf2)) = true) ∧
    (∀ sf2, isSourceFileNode (attachNode (.sourceFile sf2)) = true) ∧
    (∀ sf2, isSourceFileNode (removeRecsNode (.sourceFile sf2)) = true) ∧
    (∀ sf2, isSourceFileNode (rsmlNode (.sourceFile sf2)) = true) ∧
    (∀ sf2, isSourceFileNode (uisStripNode (.sourceFile sf2)) = true) ∧
    (∀ sf2, isSourceFileNode (uisKeepNode (.sourceFile sf2)) = true) := by
  refine ⟨rfl, rfl, ?_, ?_, ?_, ?_, ?_, ?_, ?_⟩ <;> intro sf2 <;> rfl

/-!
### Claim C9 — no-op abort atomicity and write ordering
-/

/-- C9.  In production mode (`devMode = false`), when the computed
checksum equals the stored one both release tails fail with the
terminal error before recording any persisted effect; when the
checksums differ, the ordered effect trace writes the new checksum
record first, then the output declaration file, and only then runs the
release commands. -/
theorem mainTail_noop_abort (checksum previousChecksum source : String) :
    (checksum = previousChecksum →
      mainTailPlain false checksum previousChecksum source =
        .error "Already released this version." ∧
      mainTailForce false checksum previousChecksum source =
        .error "Already released this version.") ∧
    (checksum ≠ previousChecksum →
      mainTailPlain false checksum previousChecksum source =
        .ok [.writeChecksumFile checksum, .writeOutputFile source, .gitAdd, .gitCommit,
          .standardVersionRun, .gitPushFollowTags, .npmPublish] ∧
      mainTailForce false checksum previousChecksum source =
        .ok [.writeChecksumFile checksum, .writeOutputFile source, .gitConfigEmail,
          .gitConfigName, .gitAdd, .gitCommit, .standardVersionRun, .gitPushFollowTags]) := by
  constructor
  · intro h
    constructor <;> simp [mainTailPlain, mainTailForce, h]
  · intro h
    constructor <;> simp [mainTailPlain, mainTailForce, h]

/-- Witness for `mainTail_noop_abort` at concrete checksums. -/
theorem mainTail_noop_abort_witness :
    mainTailPlain false "aa" "aa" "src" = .error "Already released this version." ∧
    mainTailForce false "aa" "bb" "src" =
      .ok [.writeChecksumFile "aa", .writeOutputFile "src", .gitConfigEmail,
        .gitConfigName, .gitAdd, .gitCommit, .standardVersionRun, .gitPushFollowTags] :=
  ⟨((mainTail_noop_abort "aa" "aa" "src").1 rfl).1,
    ((mainTail_noop_abort "aa" "bb" "src").2 (by decide)).2⟩

/-!
### Claim C10 — frame of `removeUnknownIndexSignatures` on interfaces
-/

/-- C10, counterexample.  In the `src/action.ts` variant the interface
rebuild passes `undefined` for decorators, modifiers, type parameters
and heritage clauses, so an exported interface loses its modifiers (and
its type parameters and heritage clauses): the claim that both variants
preserve them is false. -/
theorem uis_strip_loses_modifiers :
    removeUnknownIndexSignaturesStrip
        ⟨[.interfaceDecl none (some [.exportKeyword]) "Foo" (some [1]) (some [2]) []]⟩ =
      ⟨[.interfaceDecl none none "Foo" none none []]⟩ ∧
    stmtModifiers
        (.interfaceDecl none (some [.exportKeyword]) "Foo" (some [1]) (some [2])
          ([] : List TypeElement)) = some [.exportKeyword] := by
  constructor
  · simp [removeUnknownIndexSignaturesStrip, uisStmtStrip, uisMembers, uisFilterMembers]
  · rfl

/-- C10, amended.  The `src/unnamed/part_000` variant of
`removeUnknownIndexSignatures` changes only a visited interface's member
list, preserving its name, decorators, modifiers, type parameters and
heritage clauses; the `src/action.ts` variant preserves only the name
and member processing, resetting decorators, modifiers, type parameters
and heritage clauses to absent. -/
theorem uis_interface_frame (s : Statement) (h : isInterfaceStmt s = true) :
    stmtName (uisStmtKeep s) = stmtName s ∧
    stmtDecorators (uisStmtKeep s) = stmtDecorators s ∧
    stmtModifiers (uisStmtKeep s) = stmtModifiers s ∧
    stmtTypeParams (uisStmtKeep s) = stmtTypeParams s ∧
    stmtHeritage (uisStmtKeep s) = stmtHeritage s ∧
    stmtMembers (uisStmtKeep s) = (stmtMembers s).map uisMembers ∧
    stmtName (uisStmtStrip s) = stmtName s ∧
    stmtDecorators (uisStmtStrip s) = none ∧
    stmtModifiers (uisStmtStrip s) = none ∧
    stmtTypeParams (uisStmtStrip s) = none ∧
    stmtHeritage (uisStmtStrip s) = none ∧
    stmtMembers (uisStmtStrip s) = (stmtMembers s).map uisMembers := by
  cases s with
  | interfaceDecl d m n tp hh ms =>
      refine ⟨rfl, rfl, rfl, rfl, rfl, rfl, rfl, rfl, rfl, rfl, rfl, rfl⟩
  | typeAlias d m n tp ty => simp [isInterfaceStmt] at h
  | otherStatement k => simp [isInterfaceStmt] at h

/-- Witness for `uis_interface_frame` at a concrete interface. -/
theorem uis_interface_frame_witness :
    stmtModifiers
        (uisStmtKeep (.interfaceDecl none (some [.exportKeyword]) "Foo" none none [])) =
      stmtModifiers
        (.interfaceDecl none (some [.exportKeyword]) "Foo" none none
          ([] : List TypeElement)) :=
  (uis_interface_frame (.interfaceDecl none (some [.exportKeyword]) "Foo" none none [])
    rfl).2.2.1

/-!
### Claim C3 — the member filter of `removeUnknownIndexSignatures`
-/

/-- One step of the filtering `reduce`. -/
theorem uisFilterMembers_cons (orig : List TypeElement) (i : Nat) (e : TypeElement)
    (es : List TypeElement) :
    uisFilterMembers orig i (e :: es) =
      if isUnknownStringIndexSig e && (decide (0 < i) || decide (i + 1 < orig.length)) then
        uisFilterMembers orig (i + 1) es
      else uisElem e :: uisFilterMembers orig (i + 1) es := by
  rw [uisFilterMembers]

/-- From index `1` on, the sibling condition
`child.members[i - 1] || child.members[i + 1]` always holds, so the
filtering `reduce` drops exactly the members matching the drop test and
sends the kept ones through the pass. -/
theorem uisFilterMembers_of_pos (orig : List TypeElement) :
    ∀ (i : Nat) (es : List TypeElement), 1 ≤ i →
      uisFilterMembers orig i es =
        (es.filter (fun m => !isUnknownStringIndexSig m)).map uisElem := by
  intro i es
  induction es generalizing i with
  | nil => intro _; simp [uisFilterMembers]
  | cons e es ih =>
      intro hi
      have h0 : decide (0 < i) = true :=
        decide_eq_true (Nat.lt_of_lt_of_le Nat.zero_lt_one hi)
      rw [uisFilterMembers_cons, h0]
      simp only [Bool.true_or, Bool.and_true]
      rw [ih (i + 1) (by omega)]
      by_cases hs : isUnknownStringIndexSig e
      · simp [hs, List.filter_cons]
      · simp [Bool.not_eq_true] at hs
        simp [hs, List.filter_cons]

/-- C3.  For a visited shape with at least two members, the member
filter of `removeUnknownIndexSignatures` removes every member that is a
string-keyed index signature with value type `unknown` and keeps every
other member (recursively processed); a shape whose only member is such
an index signature keeps its member list unchanged; and the pass
rebuilds a visited type literal with exactly this member filter. -/
theorem uis_member_filter_spec (ms : List TypeElement) :
    (2 ≤ ms.length →
      uisMembers ms = (ms.filter (fun m => !isUnknownStringIndexSig m)).map uisElem) ∧
    uisMembers [.indexSignature [some .stringKeyword] .unknownKeyword] =
      [.indexSignature [some .stringKeyword] .unknownKeyword] ∧
    (∀ ms2, uisVisit (.typeLiteral ms2) = .typeLiteral (uisMembers ms2)) := by
  refine ⟨?_, ?_, fun ms2 => ?_⟩
  · intro h
    match ms, h with
    | e :: e2 :: es, _ =>
        have h1 : decide ((0 : Nat) + 1 < (e :: e2 :: es).length) = true :=
          decide_eq_true (by simp)
        simp only [uisMembers]
        rw [uisFilterMembers_cons, h1]
        simp only [Bool.or_true, Bool.and_true]
        rw [uisFilterMembers_of_pos _ 1 _ (le_refl 1)]
        by_cases hs : isUnknownStringIndexSig e
        · simp [hs, List.filter_cons]
        · simp [Bool.not_eq_true] at hs
          simp [hs, List.filter_cons]
  · simp [uisMembers, uisFilterMembers, isUnknownStringIndexSig, uisElem, uisParams,
      uisOptTy, uisVisit, uisTy]
  · simp [uisVisit, uisMembers]

/-- Witness for `uis_member_filter_spec` at a concrete two-member
shape. -/
theorem uis_member_filter_spec_witness :
    uisMembers
        [.indexSignature [some .stringKeyword] .unknownKeyword,
          .propertySignature "name" true (some .stringKeyword)] =
      (([.indexSignature [some .stringKeyword] .unknownKeyword,
          .propertySignature "name" true (some .stringKeyword)] : List TypeElement).filter
            (fun m => !isUnknownStringIndexSig m)).map uisElem :=
  (uis_member_filter_spec
    [.indexSignature [some .stringKeyword] .unknownKeyword,
      .propertySignature "name" true (some .stringKeyword)]).1 (by simp)

/-!
### Claim C1 — standalone record removal in unions
-/

/-- C1, counterexample.  The filter of
`removeStandaloneUnknownRecsInUnions` never inspects the index
signature's value type, so a union member `\x7b [k: string]: boolean \x7d`
— which is not an unknown-valued record, as witnessed by the second
conjunct — is removed all the same, while the claim says exactly the
unknown-valued ones are removed. -/
theorem removeRecs_drops_non_unknown_rec :
    removeStandaloneUnknownRecsInUnions
        ⟨[.typeAlias none none "T" none
            (.unionType [.literalString "a",
              .typeLiteral [.indexSignature [some .stringKeyword] (.otherKeyword 0)]])]⟩ =
      ⟨[.typeAlias none none "T" none (.unionType [.literalString "a"])]⟩ ∧
    isSpecUnknownRec
        (.typeLiteral [.indexSignature [some .stringKeyword] (.otherKeyword 0)]) = false :=
  ⟨rfl, rfl⟩

/-- A kept union member is rebuilt with `ts.visitEachChild(member,
pass)`, which coincides with the pass itself whenever the member is not
a union node. -/
theorem removeRecsChild_eq_removeRecsTy :
    ∀ t, isUnionNode t = false → removeRecsChild t = removeRecsTy t := by
  intro t h
  cases t <;> simp_all [removeRecsChild, removeRecsTy, isUnionNode]

mutual

/-- Under the no-nested-unions hypothesis the pass agrees with the
specification-side recursive filter, type-node version. -/
theorem removeRecs_eq_spec_ty :
    ∀ t, noNestedUnionsTy t = true → removeRecsTy t = specRemoveRecsTy t
  | .unionType ts, h => by
      simp only [noNestedUnionsTy, Bool.and_eq_true] at h
      simp only [removeRecsTy, specRemoveRecsTy]
      exact congrArg _ (removeRecs_eq_spec_members ts h.1 h.2)
  | .intersectionType ts, h => by
      simp only [noNestedUnionsTy] at h
      simp only [removeRecsTy, specRemoveRecsTy]
      exact congrArg _ (removeRecs_eq_spec_tys ts h)
  | .parenType t, h => by
      simp only [noNestedUnionsTy] at h
      simp only [removeRecsTy, specRemoveRecsTy]
      exact congrArg _ (removeRecs_eq_spec_ty t h)
  | .arrayType t, h => by
      simp only [noNestedUnionsTy] at h
      simp only [removeRecsTy, specRemoveRecsTy]
      exact congrArg _ (removeRecs_eq_spec_ty t h)
  | .typeLiteral ms, h => by
      simp only [noNestedUnionsTy] at h
      simp only [removeRecsTy, specRemoveRecsTy]
      exact congrArg _ (removeRecs_eq_spec_elems ms h)
  | .stringKeyword, _ => rfl
  | .unknownKeyword, _ => rfl
  | .otherKeyword _, _ => rfl
  | .literalString _, _ => rfl
  | .literalOther _, _ => rfl
  | .typeReference _, _ => rfl

/-- Union-member version of `removeRecs_eq_spec_ty`. -/
theorem removeRecs_eq_spec_members :
    ∀ ts, noNestedUnionsMembers ts = true → noNestedUnionsTys ts = true →
      removeRecsKept ts = specRemoveRecsMembers ts
  | [], _, _ => rfl
  | t :: ts, hm, ht => by
      simp only [noNestedUnionsMembers, Bool.and_eq_true] at hm
      simp only [noNestedUnionsTys, Bool.and_eq_true] at ht
      simp only [removeRecsKept, specRemoveRecsMembers]
      by_cases hr : isStandaloneStringRec t
      · simp only [hr, if_pos]
        exact removeRecs_eq_spec_members ts hm.2 ht.2
      · simp only [Bool.not_eq_true] at hr
        simp only [hr, Bool.false_eq_true, if_neg, not_false_eq_true]
        rw [removeRecsChild_eq_removeRecsTy t (by simpa using hm.1),
          removeRecs_eq_spec_ty t ht.1,
          removeRecs_eq_spec_members ts hm.2 ht.2]

/-- List version of `removeRecs_eq_spec_ty`. -/
theorem removeRecs_eq_spec_tys :
    ∀ ts, noNestedUnionsTys ts = true → removeRecsTys ts = specRemoveRecsTys ts
  | [], _ => rfl
  | t :: ts, h => by
      simp only [noNestedUnionsTys, Bool.and_eq_true] at h
      simp only [removeRecsTys, specRemoveRecsTys]
      rw [removeRecs_eq_spec_ty t h.1, removeRecs_eq_spec_tys ts h.2]

/-- Member-list version of `removeRecs_eq_spec_ty`. -/
theorem removeRecs_eq_spec_elems :
    ∀ ms, noNestedUnionsElems ms = true → removeRecsElems ms = specRemoveRecsElems ms
  | [], _ => rfl
  | e :: es, h => by
      simp only [noNestedUnionsElems, Bool.and_eq_true] at h
      simp only [removeRecsElems, specRemoveRecsElems]
      rw [removeRecs_eq_spec_elem e h.1, removeRecs_eq_spec_elems es h.2]

/-- Element version of `removeRecs_eq_spec_ty`. -/
theorem removeRecs_eq_spec_elem :
    ∀ e, noNestedUnionsElem e = true → removeRecsElem e = specRemoveRecsElem e
  | .propertySignature n o ty, h => by
      simp only [removeRecsElem, specRemoveRecsElem]
      cases ty with
      | none => rfl
      | some t =>
          simp only [noNestedUnionsElem] at h
          simp only [removeRecsOptTy, specRemoveRecsOptTy]
          rw [removeRecs_eq_spec_ty t h]
  | .indexSignature ps ty, h => by
      simp only [noNestedUnionsElem, Bool.and_eq_true] at h
      simp only [removeRecsElem, specRemoveRecsElem]
      rw [removeRecs_eq_spec_params ps h.1, removeRecs_eq_spec_ty ty h.2]
  | .otherElement _, _ => rfl

/-- Parameter version of `removeRecs_eq_spec_ty`. -/
theorem removeRecs_eq_spec_params :
    ∀ ps, noNestedUnionsParams ps = true → removeRecsParams ps = specRemoveRecsParams ps
  | [], _ => rfl
  | none :: ps, h => by
      simp only [noNestedUnionsParams] at h
      simp only [removeRecsParams, removeRecsOptTy, specRemoveRecsParams,
        specRemoveRecsOptTy]
      rw [removeRecs_eq_spec_params ps h]
  | some t :: ps, h => by
      simp only [noNestedUnionsParams, Bool.and_eq_true] at h
      simp only [removeRecsParams, removeRecsOptTy, specRemoveRecsParams,
        specRemoveRecsOptTy]
      rw [removeRecs_eq_spec_ty t h.1, removeRecs_eq_spec_params ps h.2]

end

/-- Statement version of `removeRecs_eq_spec_ty`. -/
theorem removeRecs_eq_spec_stmt (s : Statement) (h : noNestedUnionsStmt s = true) :
    removeRecsStmt s = specRemoveRecsStmt s := by
  cases s with
  | typeAlias d m n tp ty =>
      simp only [noNestedUnionsStmt] at h
      simp only [removeRecsStmt, specRemoveRecsStmt]
      rw [removeRecs_eq_spec_ty ty h]
  | interfaceDecl d m n tp hh ms =>
      simp only [noNestedUnionsStmt] at h
      simp only [removeRecsStmt, specRemoveRecsStmt]
      rw [removeRecs_eq_spec_elems ms h]
  | otherStatement k => rfl

/-- C1, amended.  For input trees in which no union node is a direct
member of another union node, `removeStandaloneUnknownRecsInUnions`
removes from every union exactly the members that are single-member
object-type literals whose sole member is an index signature with one
string-typed parameter — irrespective of the signature's value type —
and keeps every other member, applying the same rule recursively inside
the kept members. -/
theorem removeRecs_matches_spec (sf : SourceFile) (h : noNestedUnionsSF sf = true) :
    removeStandaloneUnknownRecsInUnions sf = specRemoveRecsSF sf := by
  simp only [removeStandaloneUnknownRecsInUnions, specRemoveRecsSF, SourceFile.mk.injEq]
  simp only [noNestedUnionsSF, List.all_eq_true] at h
  exact List.map_congr_left fun s hs => removeRecs_eq_spec_stmt s (h s hs)

/-- Witness for `removeRecs_matches_spec` at a concrete source file. -/
theorem removeRecs_matches_spec_witness :
    removeStandaloneUnknownRecsInUnions
        ⟨[.typeAlias none none "T" none
            (.unionType [.literalString "a",
              .typeLiteral [.indexSignature [some .stringKeyword] .unknownKeyword]])]⟩ =
      specRemoveRecsSF
        ⟨[.typeAlias none none "T" none
            (.unionType [.literalString "a",
              .typeLiteral [.indexSignature [some .stringKeyword] .unknownKeyword]])]⟩ :=
  removeRecs_matches_spec _ (by decide)

/-!
### Claim C6 — forced intersections under the root alias
-/

/-- C6, counterexample.  `unionsToIntersections` is applied to the
alias's type node itself, and the function only converts union
*children*: a definition that is itself a union node keeps its union
kind, so after the renaming pass a union type node remains under (at)
the root alias's definition. -/
theorem renameForce_keeps_top_union :
    renameTsconfigTypeForceIntersectionsRemoveOtherExports
        ⟨[.typeAlias none none "T" none
            (.unionType [.literalString "a", .literalString "b"])]⟩ =
      ⟨[.typeAlias none none "Tsconfig" none
          (.unionType [.literalString "a", .literalString "b"])]⟩ ∧
    isUnionNode (.unionType [.literalString "a", .literalString "b"]) = true := by
  constructor
  · simp [renameTsconfigTypeForceIntersectionsRemoveOtherExports, renameStmtForce,
      u2iTy, u2iTys, u2iVisit]
  · rfl

mutual

/-- `specConvAllTy` leaves no union node anywhere in its output. -/
theorem unionFree_specConvAll : ∀ t, unionFreeTy (specConvAllTy t) = true
  | .unionType ts => by
      simp only [specConvAllTy, unionFreeTy]
      exact unionFree_specConvAllTys ts
  | .intersectionType ts => by
      simp only [specConvAllTy, unionFreeTy]
      exact unionFree_specConvAllTys ts
  | .parenType t => by
      simp only [specConvAllTy, unionFreeTy]
      exact unionFree_specConvAll t
  | .arrayType t => by
      simp only [specConvAllTy, unionFreeTy]
      exact unionFree_specConvAll t
  | .typeLiteral ms => by
      simp only [specConvAllTy, unionFreeTy]
      exact unionFree_specConvAllElems ms
  | .stringKeyword => rfl
  | .unknownKeyword => rfl
  | .otherKeyword _ => rfl
  | .literalString _ => rfl
  | .literalOther _ => rfl
  | .typeReference _ => rfl

/-- List version of `unionFree_specConvAll`. -/
theorem unionFree_specConvAllTys : ∀ ts, unionFreeTys (specConvAllTys ts) = true
  | [] => rfl
  | t :: ts => by
      simp only [specConvAllTys, unionFreeTys, Bool.and_eq_true]
      exact ⟨unionFree_specConvAll t, unionFree_specConvAllTys ts⟩

/-- Member version of `unionFree_specConvAll`. -/
theorem unionFree_specConvAllElems : ∀ ms, unionFreeElems (specConvAllElems ms) = true
  | [] => rfl
  | e :: es => by
      simp only [specConvAllElems, unionFreeElems, Bool.and_eq_true]
      exact ⟨unionFree_specConvAllElem e, unionFree_specConvAllElems es⟩

/-- Element version of `unionFree_specConvAll`. -/
theorem unionFree_specConvAllElem : ∀ e, unionFreeElem (specConvAllElem e) = true
  | .propertySignature n o none => rfl
  | .propertySignature n o (some t) => by
      simp only [specConvAllElem, specConvAllOptTy, unionFreeElem]
      exact unionFree_specConvAll t
  | .indexSignature ps ty => by
      simp only [specConvAllElem, unionFreeElem, Bool.and_eq_true]
      exact ⟨unionFree_specConvAllParams ps, unionFree_specConvAll ty⟩
  | .otherElement _ => rfl

/-- Parameter version of `unionFree_specConvAll`. -/
theorem unionFree_specConvAllParams : ∀ ps, unionFreeParams (specConvAllParams ps) = true
  | [] => rfl
  | none :: ps => by
      simp only [specConvAllParams, specConvAllOptTy, unionFreeParams]
      exact unionFree_specConvAllParams ps
  | some t :: ps => by
      simp only [specConvAllParams, specConvAllOptTy, unionFreeParams, Bool.and_eq_true]
      exact ⟨unionFree_specConvAll t, unionFree_specConvAllParams ps⟩

end

mutual

/-- Under the no-nested-unions hypothesis, `unionsToIntersections`
agrees with the full bottom-up conversion on every non-union node. -/
theorem u2i_eq_conv_nonunion :
    ∀ t, noNestedUnionsTy t = true → isUnionNode t = false → u2iTy t = specConvAllTy t
  | .unionType _, _, hu => by simp [isUnionNode] at hu
  | .intersectionType ts, h, _ => by
      simp only [noNestedUnionsTy] at h
      simp only [u2iTy, specConvAllTy]
      rw [u2iTys_eq_conv ts h]
  | .parenType t, h, _ => by
      simp only [noNestedUnionsTy] at h
      simp only [u2iTy, specConvAllTy]
      rw [u2iVisit_eq_conv t h]
  | .arrayType t, h, _ => by
      simp only [noNestedUnionsTy] at h
      simp only [u2iTy, specConvAllTy]
      rw [u2iVisit_eq_conv t h]
  | .typeLiteral ms, h, _ => by
      simp only [noNestedUnionsTy] at h
      simp only [u2iTy, specConvAllTy]
      rw [u2iElems_eq_conv ms h]
  | .stringKeyword, _, _ => by simp [u2iTy, specConvAllTy]
  | .unknownKeyword, _, _ => by simp [u2iTy, specConvAllTy]
  | .otherKeyword _, _, _ => by simp [u2iTy, specConvAllTy]
  | .literalString _, _, _ => by simp [u2iTy, specConvAllTy]
  | .literalOther _, _, _ => by simp [u2iTy, specConvAllTy]
  | .typeReference _, _, _ => by simp [u2iTy, specConvAllTy]

/-- Under the no-nested-unions hypothesis, the visitor of
`unionsToIntersections` is exactly the full bottom-up conversion. -/
theorem u2iVisit_eq_conv :
    ∀ t, noNestedUnionsTy t = true → u2iVisit t = specConvAllTy t
  | .unionType ts, h => by
      simp only [noNestedUnionsTy, Bool.and_eq_true] at h
      simp only [u2iVisit, specConvAllTy]
      rw [u2iTysTop_eq_conv ts h.1 h.2]
  | .intersectionType ts, h => by
      rw [show u2iVisit (.intersectionType ts) = u2iTy (.intersectionType ts) from by
        simp [u2iVisit]]
      exact u2i_eq_conv_nonunion _ h rfl
  | .parenType t, h => by
      rw [show u2iVisit (.parenType t) = u2iTy (.parenType t) from by simp [u2iVisit]]
      exact u2i_eq_conv_nonunion _ h rfl
  | .arrayType t, h => by
      rw [show u2iVisit (.arrayType t) = u2iTy (.arrayType t) from by simp [u2iVisit]]
      exact u2i_eq_conv_nonunion _ h rfl
  | .typeLiteral ms, h => by
      rw [show u2iVisit (.typeLiteral ms) = u2iTy (.typeLiteral ms) from by simp [u2iVisit]]
      exact u2i_eq_conv_nonunion _ h rfl
  | .stringKeyword, h => by simp [u2iVisit, u2iTy, specConvAllTy]
  | .unknownKeyword, h => by simp [u2iVisit, u2iTy, specConvAllTy]
  | .otherKeyword _, h => by simp [u2iVisit, u2iTy, specConvAllTy]
  | .literalString _, h => by simp [u2iVisit, u2iTy, specConvAllTy]
  | .literalOther _, h => by simp [u2iVisit, u2iTy, specConvAllTy]
  | .typeReference _, h => by simp [u2iVisit, u2iTy, specConvAllTy]

/-- Members of a converted union are sent through
`unionsToIntersections` directly; with no nested unions they are
non-union nodes, so this is again the full conversion. -/
theorem u2iTysTop_eq_conv :
    ∀ ts, noNestedUnionsMembers ts = true → noNestedUnionsTys ts = true →
      u2iTysTop ts = specConvAllTys ts
  | [], _, _ => by simp [u2iTysTop, specConvAllTys]
  | t :: ts, hm, ht => by
      simp only [noNestedUnionsMembers, Bool.and_eq_true] at hm
      simp only [noNestedUnionsTys, Bool.and_eq_true] at ht
      simp only [u2iTysTop, specConvAllTys]
      rw [u2i_eq_conv_nonunion t ht.1 (by simpa using hm.1),
        u2iTysTop_eq_conv ts hm.2 ht.2]

/-- Visited member lists under the no-nested-unions hypothesis. -/
theorem u2iTys_eq_conv :
    ∀ ts, noNestedUnionsTys ts = true → u2iTys ts = specConvAllTys ts
  | [], _ => by simp [u2iTys, specConvAllTys]
  | t :: ts, h => by
      simp only [noNestedUnionsTys, Bool.and_eq_true] at h
      simp only [u2iTys, specConvAllTys]
      rw [u2iVisit_eq_conv t h.1, u2iTys_eq_conv ts h.2]

/-- Member-list version of `u2iVisit_eq_conv`. -/
theorem u2iElems_eq_conv :
    ∀ ms, noNestedUnionsElems ms = true → u2iElems ms = specConvAllElems ms
  | [], _ => by simp [u2iElems, specConvAllElems]
  | e :: es, h => by
      simp only [noNestedUnionsElems, Bool.and_eq_true] at h
      simp only [u2iElems, specConvAllElems]
      rw [u2iElem_eq_conv e h.1, u2iElems_eq_conv es h.2]

/-- Element version of `u2iVisit_eq_conv`. -/
theorem u2iElem_eq_conv :
    ∀ e, noNestedUnionsElem e = true → u2iElem e = specConvAllElem e
  | .propertySignature n o none, _ => by
      simp [u2iElem, u2iOptTy, specConvAllElem, specConvAllOptTy]
  | .propertySignature n o (some t), h => by
      simp only [noNestedUnionsElem] at h
      simp only [u2iElem, u2iOptTy, specConvAllElem, specConvAllOptTy]
      rw [u2iVisit_eq_conv t h]
  | .indexSignature ps ty, h => by
      simp only [noNestedUnionsElem, Bool.and_eq_true] at h
      simp only [u2iElem, specConvAllElem]
      rw [u2iParams_eq_conv ps h.1, u2iVisit_eq_conv ty h.2]
  | .otherElement _, _ => by simp [u2iElem, specConvAllElem]

/-- Parameter version of `u2iVisit_eq_conv`. -/
theorem u2iParams_eq_conv :
    ∀ ps, noNestedUnionsParams ps = true → u2iParams ps = specConvAllParams ps
  | [], _ => by simp [u2iParams, specConvAllParams]
  | none :: ps, h => by
      simp only [noNestedUnionsParams] at h
      simp only [u2iParams, u2iOptTy, specConvAllParams, specConvAllOptTy]
      rw [u2iParams_eq_conv ps h]
  | some t :: ps, h => by
      simp only [noNestedUnionsParams, Bool.and_eq_true] at h
      simp only [u2iParams, u2iOptTy, specConvAllParams, specConvAllOptTy]
      rw [u2iVisit_eq_conv t h.1, u2iParams_eq_conv ps h.2]

end

/-- C6, amended.  Provided no union node is a direct member of another
union node, the forced-intersection renaming rewrites every union node
strictly below the root alias's definition into an intersection with
the same (recursively converted) member types, bottom-up; the
definition node itself keeps its own kind, so when the definition is
not itself a union no union type node remains under it. -/
theorem renameForce_conversion_spec (t : TypeNode) (h : noNestedUnionsTy t = true) :
    u2iTy t = specTopConvTy t ∧
    (isUnionNode t = false → unionFreeTy (u2iTy t) = true) ∧
    (∀ d m n tp, renameStmtForce (.typeAlias d m n tp t) =
      .typeAlias d m "Tsconfig" tp (u2iTy t)) := by
  refine ⟨?_, ?_, fun d m n tp => rfl⟩
  · cases t with
    | unionType ts =>
        simp only [noNestedUnionsTy, Bool.and_eq_true] at h
        simp only [specTopConvTy]
        rw [show u2iTy (.unionType ts) = .unionType (u2iTys ts) from by simp [u2iTy]]
        rw [u2iTys_eq_conv ts h.2]
    | intersectionType ts => exact u2i_eq_conv_nonunion _ h rfl
    | parenType t2 => exact u2i_eq_conv_nonunion _ h rfl
    | arrayType t2 => exact u2i_eq_conv_nonunion _ h rfl
    | typeLiteral ms => exact u2i_eq_conv_nonunion _ h rfl
    | stringKeyword => exact u2i_eq_conv_nonunion _ h rfl
    | unknownKeyword => exact u2i_eq_conv_nonunion _ h rfl
    | otherKeyword k => exact u2i_eq_conv_nonunion _ h rfl
    | literalString s => exact u2i_eq_conv_nonunion _ h rfl
    | literalOther k => exact u2i_eq_conv_nonunion _ h rfl
    | typeReference n => exact u2i_eq_conv_nonunion _ h rfl
  · intro hu
    rw [u2i_eq_conv_nonunion t h hu]
    exact unionFree_specConvAll t

/-- Witness for `renameForce_conversion_spec` at a concrete type. -/
theorem renameForce_conversion_spec_witness :
    u2iTy (.parenType (.unionType [.literalString "a", .literalString "b"])) =
      specTopConvTy (.parenType (.unionType [.literalString "a", .literalString "b"])) :=
  (renameForce_conversion_spec
    (.parenType (.unionType [.literalString "a", .literalString "b"])) (by decide)).1

/-!
### Claim C2 — wide-string removal: helper lemmas
-/

/-- `removeWideStrings` preserves the top-level kind observations on any
node that is not parenthesized (its only kind change is unwrapping
parentheses). -/
theorem rws_top_kind (t : TypeNode) (h : noParensTy t = true) :
    isStringKeyword (removeWideStrings t) = isStringKeyword t ∧
    isLiteralStringNode (removeWideStrings t) = isLiteralStringNode t := by
  cases t <;> simp_all [removeWideStrings, isStringKeyword, isLiteralStringNode, noParensTy]

mutual

/-- `removeWideStrings` preserves absence of parentheses. -/
theorem noParens_rws : ∀ t, noParensTy t = true → noParensTy (removeWideStrings t) = true
  | .unionType ts, h => by
      simp only [noParensTy] at h
      simp only [removeWideStrings, noParensTy]
      exact noParens_rwsMembers ts h
  | .intersectionType ts, h => by
      simp only [noParensTy] at h
      simp only [removeWideStrings, noParensTy]
      exact noParens_rwsMembers ts h
  | .parenType t, h => by simp [noParensTy] at h
  | .arrayType t, h => by simpa [removeWideStrings] using h
  | .typeLiteral ms, h => by simpa [removeWideStrings] using h
  | .stringKeyword, h => h
  | .unknownKeyword, h => h
  | .otherKeyword _, h => h
  | .literalString _, h => h
  | .literalOther _, h => h
  | .typeReference _, h => h

/-- List version of `noParens_rws`. -/
theorem noParens_rwsMembers :
    ∀ ts, noParensTys ts = true → noParensTys (removeWideStringsMembers ts) = true
  | [], _ => rfl
  | t :: ts, h => by
      simp only [noParensTys, Bool.and_eq_true] at h
      by_cases hs : isStringKeyword t
      · simp only [removeWideStringsMembers, hs, if_pos]
        exact noParens_rwsMembers ts h.2
      · simp only [Bool.not_eq_true] at hs
        simp only [removeWideStringsMembers, hs, Bool.false_eq_true, if_neg,
          not_false_eq_true, noParensTys, Bool.and_eq_true]
        exact ⟨noParens_rws t h.1, noParens_rwsMembers ts h.2⟩

end

/-- `rsmlTy` rebuilds a node in place, so it preserves the top-level
kind observations. -/
theorem rsmlTy_top_kind (t : TypeNode) :
    isStringKeyword (rsmlTy t) = isStringKeyword t ∧
    isLiteralStringNode (rsmlTy t) = isLiteralStringNode t := by
  cases t <;> simp [rsmlTy, isStringKeyword, isLiteralStringNode]

/-- The visitor of the wide-string pass preserves the top-level kind
observations on parenthesis-free nodes. -/
theorem rsmlVisit_top_kind (t : TypeNode) (h : noParensTy t = true) :
    isStringKeyword (rsmlVisit t) = isStringKeyword t ∧
    isLiteralStringNode (rsmlVisit t) = isLiteralStringNode t := by
  by_cases hc : intersectsWithStringLiteral t
  · rw [show rsmlVisit t = rsmlTy (removeWideStrings t) from by simp [rsmlVisit, hc]]
    have h1 := rsmlTy_top_kind (removeWideStrings t)
    have h2 := rws_top_kind t h
    exact ⟨h1.1.trans h2.1, h1.2.trans h2.2⟩
  · rw [show rsmlVisit t = rsmlTy t from by simp [rsmlVisit, hc]]
    exact rsmlTy_top_kind t

/-- Mapping the visitor over a member list changes no top-level kind
observation, so the `any` observations are preserved. -/
theorem rsmlTys_any_kind :
    ∀ us, noParensTys us = true →
      (rsmlTys us).any isStringKeyword = us.any isStringKeyword ∧
      (rsmlTys us).any isLiteralStringNode = us.any isLiteralStringNode := by
  intro us
  induction us with
  | nil => intro _; rw [show rsmlTys [] = [] from by rw [rsmlTys]]; exact ⟨rfl, rfl⟩
  | cons u us ih =>
      intro h
      simp only [noParensTys, Bool.and_eq_true] at h
      have h1 := rsmlVisit_top_kind u h.1
      have h2 := ih h.2
      rw [show rsmlTys (u :: us) = rsmlVisit u :: rsmlTys us from by rw [rsmlTys]]
      constructor
      · simp only [List.any_cons, h1.1, h2.1]
      · simp only [List.any_cons, h1.2, h2.2]

/-- After `removeWideStrings` filters a member list, no
unconstrained-`string` member remains (parenthesis-free members keep
their kind when recursed into). -/
theorem rwsMembers_no_string :
    ∀ ts, noParensTys ts = true →
      (removeWideStringsMembers ts).any isStringKeyword = false := by
  intro ts
  induction ts with
  | nil => intro _; rfl
  | cons t ts ih =>
      intro h
      simp only [noParensTys, Bool.and_eq_true] at h
      by_cases hs : isStringKeyword t
      · simp only [removeWideStringsMembers, hs, if_pos]
        exact ih h.2
      · simp only [Bool.not_eq_true] at hs
        simp only [removeWideStringsMembers, hs, Bool.false_eq_true, if_neg,
          not_false_eq_true, List.any_cons]
        rw [(rws_top_kind t h.1).1, hs, ih h.2]
        rfl

/-- A string-literal node intersects with a string literal, so a member
list with no such intersection has no string-literal member. -/
theorem no_iwsl_no_literal :
    ∀ ts : List TypeNode, anyIntersectsWithStringLiteral ts = false →
      ts.any isLiteralStringNode = false := by
  intro ts
  induction ts with
  | nil => intro _; rfl
  | cons t ts ih =>
      intro h
      simp only [anyIntersectsWithStringLiteral, Bool.or_eq_false_iff] at h
      simp only [List.any_cons, ih h.2, Bool.or_false]
      cases t <;> simp_all [isLiteralStringNode, intersectsWithStringLiteral]

mutual

/-- On a parenthesis-free child, the visitor of
`removeStringMergedWithStringLiterals` produces a tree in which no
union or intersection node combines a string-literal member with an
unconstrained-`string` member. -/
theorem clean_rsmlVisit : ∀ t, noParensTy t = true → cleanTy (rsmlVisit t) = true := fun t h => by
  by_cases hc : intersectsWithStringLiteral t
  · rw [show rsmlVisit t = rsmlTy (removeWideStrings t) from by simp [rsmlVisit, hc]]
    cases t with
    | literalString s => simp [removeWideStrings, rsmlTy, cleanTy]
    | parenType t2 => simp [noParensTy] at h
    | unionType ts =>
        have hnp : noParensTys ts = true := by simpa [noParensTy] using h
        rw [show removeWideStrings (.unionType ts) =
            .unionType (removeWideStringsMembers ts) from by rw [removeWideStrings]]
        rw [show rsmlTy (.unionType (removeWideStringsMembers ts)) =
            .unionType (rsmlTys (removeWideStringsMembers ts)) from by rw [rsmlTy]]
        have hnp2 := noParens_rwsMembers ts hnp
        have hstr := rwsMembers_no_string ts hnp
        have hkind := rsmlTys_any_kind (removeWideStringsMembers ts) hnp2
        have hsz := removeWideStringsMembers_size ts
        simp only [cleanTy, Bool.and_eq_true]
        constructor
        · rw [hkind.1, hstr]
          simp
        · exact clean_rsmlTys (removeWideStringsMembers ts) hnp2
    | intersectionType ts =>
        have hnp : noParensTys ts = true := by simpa [noParensTy] using h
        rw [show removeWideStrings (.intersectionType ts) =
            .intersectionType (removeWideStringsMembers ts) from by rw [removeWideStrings]]
        rw [show rsmlTy (.intersectionType (removeWideStringsMembers ts)) =
            .intersectionType (rsmlTys (removeWideStringsMembers ts)) from by rw [rsmlTy]]
        have hnp2 := noParens_rwsMembers ts hnp
        have hstr := rwsMembers_no_string ts hnp
        have hkind := rsmlTys_any_kind (removeWideStringsMembers ts) hnp2
        have hsz := removeWideStringsMembers_size ts
        simp only [cleanTy, Bool.and_eq_true]
        constructor
        · rw [hkind.1, hstr]
          simp
        · exact clean_rsmlTys (removeWideStringsMembers ts) hnp2
    | stringKeyword => simp [intersectsWithStringLiteral] at hc
    | unknownKeyword => simp [intersectsWithStringLiteral] at hc
    | otherKeyword k => simp [intersectsWithStringLiteral] at hc
    | literalOther k => simp [intersectsWithStringLiteral] at hc
    | arrayType t2 => simp [intersectsWithStringLiteral] at hc
    | typeReference n => simp [intersectsWithStringLiteral] at hc
    | typeLiteral ms => simp [intersectsWithStringLiteral] at hc
  · rw [show rsmlVisit t = rsmlTy t from by simp [rsmlVisit, hc]]
    exact clean_rsmlTy_niwsl t h (by simpa using hc)
termination_by t => 2 * sizeOf t + 1
decreasing_by
all_goals simp_wf
all_goals try subst_vars
all_goals try simp only [TypeNode.unionType.sizeOf_spec,
    TypeNode.intersectionType.sizeOf_spec, TypeNode.parenType.sizeOf_spec,
    TypeNode.arrayType.sizeOf_spec, TypeNode.typeLiteral.sizeOf_spec,
    TypeElement.propertySignature.sizeOf_spec, TypeElement.indexSignature.sizeOf_spec,
    List.cons.sizeOf_spec, Option.some.sizeOf_spec]
all_goals omega

/-- As `clean_rsmlVisit`, for the pass applied to a node that does not
intersect with a string literal. -/
theorem clean_rsmlTy_niwsl :
    ∀ t, noParensTy t = true → intersectsWithStringLiteral t = false →
      cleanTy (rsmlTy t) = true := fun t h hiw => by
  cases t with
  | unionType ts =>
      have hnp : noParensTys ts = true := by simpa [noParensTy] using h
      have hany : anyIntersectsWithStringLiteral ts = false := by
        simpa [intersectsWithStringLiteral] using hiw
      rw [show rsmlTy (.unionType ts) = .unionType (rsmlTys ts) from by rw [rsmlTy]]
      have hkind := rsmlTys_any_kind ts hnp
      simp only [cleanTy, Bool.and_eq_true]
      constructor
      · rw [hkind.2, no_iwsl_no_literal ts hany]
        simp
      · exact clean_rsmlTys ts hnp
  | intersectionType ts =>
      have hnp : noParensTys ts = true := by simpa [noParensTy] using h
      have hany : anyIntersectsWithStringLiteral ts = false := by
        simpa [intersectsWithStringLiteral] using hiw
      rw [show rsmlTy (.intersectionType ts) = .intersectionType (rsmlTys ts) from by
        rw [rsmlTy]]
      have hkind := rsmlTys_any_kind ts hnp
      simp only [cleanTy, Bool.and_eq_true]
      constructor
      · rw [hkind.2, no_iwsl_no_literal ts hany]
        simp
      · exact clean_rsmlTys ts hnp
  | parenType t2 => simp [noParensTy] at h
  | arrayType t2 =>
      have hnp : noParensTy t2 = true := by simpa [noParensTy] using h
      rw [show rsmlTy (.arrayType t2) = .arrayType (rsmlVisit t2) from by rw [rsmlTy]]
      simp only [cleanTy]
      exact clean_rsmlVisit t2 hnp
  | typeLiteral ms =>
      have hnp : noParensElems ms = true := by simpa [noParensTy] using h
      rw [show rsmlTy (.typeLiteral ms) = .typeLiteral (rsmlElems ms) from by rw [rsmlTy]]
      simp only [cleanTy]
      exact clean_rsmlElems ms hnp
  | stringKeyword => simp [rsmlTy, cleanTy]
  | unknownKeyword => simp [rsmlTy, cleanTy]
  | otherKeyword k => simp [rsmlTy, cleanTy]
  | literalString s => simp [rsmlTy, cleanTy]
  | literalOther k => simp [rsmlTy, cleanTy]
  | typeReference n => simp [rsmlTy, cleanTy]
termination_by t => 2 * sizeOf t
decreasing_by
all_goals simp_wf
all_goals try subst_vars
all_goals try simp only [TypeNode.unionType.sizeOf_spec,
    TypeNode.intersectionType.sizeOf_spec, TypeNode.parenType.sizeOf_spec,
    TypeNode.arrayType.sizeOf_spec, TypeNode.typeLiteral.sizeOf_spec,
    TypeElement.propertySignature.sizeOf_spec, TypeElement.indexSignature.sizeOf_spec,
    List.cons.sizeOf_spec, Option.some.sizeOf_spec]
all_goals omega

/-- List version of `clean_rsmlVisit`. -/
theorem clean_rsmlTys :
    ∀ us, noParensTys us = true → cleanTys (rsmlTys us) = true := fun us h => by
  cases us with
  | nil => rw [show rsmlTys [] = [] from by rw [rsmlTys]]; rfl
  | cons u us =>
      simp only [noParensTys, Bool.and_eq_true] at h
      rw [show rsmlTys (u :: us) = rsmlVisit u :: rsmlTys us from by rw [rsmlTys]]
      simp only [cleanTys, Bool.and_eq_true]
      exact ⟨clean_rsmlVisit u h.1, clean_rsmlTys us h.2⟩
termination_by us => 2 * sizeOf us
decreasing_by
all_goals simp_wf
all_goals try subst_vars
all_goals try simp only [TypeNode.unionType.sizeOf_spec,
    TypeNode.intersectionType.sizeOf_spec, TypeNode.parenType.sizeOf_spec,
    TypeNode.arrayType.sizeOf_spec, TypeNode.typeLiteral.sizeOf_spec,
    TypeElement.propertySignature.sizeOf_spec, TypeElement.indexSignature.sizeOf_spec,
    List.cons.sizeOf_spec, Option.some.sizeOf_spec]
all_goals omega

/-- Member-list version of `clean_rsmlVisit`. -/
theorem clean_rsmlElems :
    ∀ ms, noParensElems ms = true → cleanElems (rsmlElems ms) = true := fun ms h => by
  cases ms with
  | nil => rw [show rsmlElems [] = [] from by rw [rsmlElems]]; rfl
  | cons e es =>
      simp only [noParensElems, Bool.and_eq_true] at h
      rw [show rsmlElems (e :: es) = rsmlElem e :: rsmlElems es from by rw [rsmlElems]]
      simp only [cleanElems, Bool.and_eq_true]
      exact ⟨clean_rsmlElem e h.1, clean_rsmlElems es h.2⟩
termination_by ms => 2 * sizeOf ms
decreasing_by
all_goals simp_wf
all_goals try subst_vars
all_goals try simp only [TypeNode.unionType.sizeOf_spec,
    TypeNode.intersectionType.sizeOf_spec, TypeNode.parenType.sizeOf_spec,
    TypeNode.arrayType.sizeOf_spec, TypeNode.typeLiteral.sizeOf_spec,
    TypeElement.propertySignature.sizeOf_spec, TypeElement.indexSignature.sizeOf_spec,
    List.cons.sizeOf_spec, Option.some.sizeOf_spec]
all_goals omega

/-- Element version of `clean_rsmlVisit`. -/
theorem clean_rsmlElem :
    ∀ e, noParensElem e = true → cleanElem (rsmlElem e) = true := fun e h => by
  cases e with
  | propertySignature n o ty =>
      cases ty with
      | none =>
          rw [show rsmlElem (.propertySignature n o none) =
              .propertySignature n o none from by rw [rsmlElem]; rw [rsmlOptTy]]
          rfl
      | some t =>
          have hnp : noParensTy t = true := by simpa [noParensElem] using h
          rw [show rsmlElem (.propertySignature n o (some t)) =
              .propertySignature n o (some (rsmlVisit t)) from by
            rw [rsmlElem]; rw [rsmlOptTy]]
          simp only [cleanElem]
          exact clean_rsmlVisit t hnp
  | indexSignature ps ty =>
      simp only [noParensElem, Bool.and_eq_true] at h
      rw [show rsmlElem (.indexSignature ps ty) =
          .indexSignature (rsmlParams ps) (rsmlVisit ty) from by rw [rsmlElem]]
      simp only [cleanElem, Bool.and_eq_true]
      exact ⟨clean_rsmlParams ps h.1, clean_rsmlVisit ty h.2⟩
  | otherElement k =>
      rw [show rsmlElem (.otherElement k) = .otherElement k from by rw [rsmlElem]]
      rfl
termination_by e => 2 * sizeOf e
decreasing_by
all_goals simp_wf
all_goals try subst_vars
all_goals try simp only [TypeNode.unionType.sizeOf_spec,
    TypeNode.intersectionType.sizeOf_spec, TypeNode.parenType.sizeOf_spec,
    TypeNode.arrayType.sizeOf_spec, TypeNode.typeLiteral.sizeOf_spec,
    TypeElement.propertySignature.sizeOf_spec, TypeElement.indexSignature.sizeOf_spec,
    List.cons.sizeOf_spec, Option.some.sizeOf_spec]
all_goals omega

/-- Parameter version of `clean_rsmlVisit`. -/
theorem clean_rsmlParams :
    ∀ ps, noParensParams ps = true → cleanParams (rsmlParams ps) = true := fun ps h => by
  cases ps with
  | nil => rw [show rsmlParams [] = [] from by rw [rsmlParams]]; rfl
  | cons p ps =>
      cases p with
      | none =>
          have hnp : noParensParams ps = true := by simpa [noParensParams] using h
          rw [show rsmlParams (none :: ps) = none :: rsmlParams ps from by
            rw [rsmlParams]; rw [rsmlOptTy]]
          simp only [cleanParams]
          exact clean_rsmlParams ps hnp
      | some t =>
          simp only [noParensParams, Bool.and_eq_true] at h
          rw [show rsmlParams (some t :: ps) = some (rsmlVisit t) :: rsmlParams ps from by
            rw [rsmlParams]; rw [rsmlOptTy]]
          simp only [cleanParams, Bool.and_eq_true]
          exact ⟨clean_rsmlVisit t h.1, clean_rsmlParams ps h.2⟩
termination_by ps => 2 * sizeOf ps
decreasing_by
all_goals simp_wf
all_goals try subst_vars
all_goals try simp only [TypeNode.unionType.sizeOf_spec,
    TypeNode.intersectionType.sizeOf_spec, TypeNode.parenType.sizeOf_spec,
    TypeNode.arrayType.sizeOf_spec, TypeNode.typeLiteral.sizeOf_spec,
    TypeElement.propertySignature.sizeOf_spec, TypeElement.indexSignature.sizeOf_spec,
    List.cons.sizeOf_spec, Option.some.sizeOf_spec]
all_goals omega

end

mutual

/-- `removeWideStrings` never removes a string-literal leaf on
parenthesis-free trees: only `string`-keyword members are dropped. -/
theorem lits_rws : ∀ t, noParensTy t = true →
    literalsTy (removeWideStrings t) = literalsTy t
  | .unionType ts, h => by
      simp only [noParensTy] at h
      simp only [removeWideStrings, literalsTy]
      exact lits_rwsMembers ts h
  | .intersectionType ts, h => by
      simp only [noParensTy] at h
      simp only [removeWideStrings, literalsTy]
      exact lits_rwsMembers ts h
  | .parenType t, h => by simp [noParensTy] at h
  | .arrayType t, h => rfl
  | .typeLiteral ms, h => rfl
  | .stringKeyword, _ => rfl
  | .unknownKeyword, _ => rfl
  | .otherKeyword _, _ => rfl
  | .literalString _, _ => rfl
  | .literalOther _, _ => rfl
  | .typeReference _, _ => rfl

/-- List version of `lits_rws`. -/
theorem lits_rwsMembers : ∀ ts, noParensTys ts = true →
    literalsTys (removeWideStringsMembers ts) = literalsTys ts
  | [], _ => rfl
  | t :: ts, h => by
      simp only [noParensTys, Bool.and_eq_true] at h
      by_cases hs : isStringKeyword t
      · have ht : t = .stringKeyword := by cases t <;> simp_all [isStringKeyword]
        subst ht
        simp only [removeWideStringsMembers, isStringKeyword, if_pos, literalsTys,
          literalsTy, List.nil_append]
        exact lits_rwsMembers ts h.2
      · simp only [Bool.not_eq_true] at hs
        simp only [removeWideStringsMembers, hs, Bool.false_eq_true, if_neg,
          not_false_eq_true, literalsTys]
        rw [lits_rws t h.1, lits_rwsMembers ts h.2]

end

mutual

/-- On a parenthesis-free child, the visitor of
`removeStringMergedWithStringLiterals` preserves every string-literal
leaf. -/
theorem lits_rsmlVisit : ∀ t, noParensTy t = true →
    literalsTy (rsmlVisit t) = literalsTy t := fun t h => by
  by_cases hc : intersectsWithStringLiteral t
  · rw [show rsmlVisit t = rsmlTy (removeWideStrings t) from by simp [rsmlVisit, hc]]
    have hsz := removeWideStrings_size t
    rw [lits_rsmlTy (removeWideStrings t) (noParens_rws t h)]
    exact lits_rws t h
  · rw [show rsmlVisit t = rsmlTy t from by simp [rsmlVisit, hc]]
    exact lits_rsmlTy t h
termination_by t => 2 * sizeOf t + 1
decreasing_by
all_goals simp_wf
all_goals omega

/-- The pass itself preserves every string-literal leaf on
parenthesis-free trees. -/
theorem lits_rsmlTy : ∀ t, noParensTy t = true →
    literalsTy (rsmlTy t) = literalsTy t := fun t h => by
  cases t with
  | unionType ts =>
      have hnp : noParensTys ts = true := by simpa [noParensTy] using h
      rw [show rsmlTy (.unionType ts) = .unionType (rsmlTys ts) from by rw [rsmlTy]]
      simp only [literalsTy]
      exact lits_rsmlTys ts hnp
  | intersectionType ts =>
      have hnp : noParensTys ts = true := by simpa [noParensTy] using h
      rw [show rsmlTy (.intersectionType ts) = .intersectionType (rsmlTys ts) from by
        rw [rsmlTy]]
      simp only [literalsTy]
      exact lits_rsmlTys ts hnp
  | parenType t2 => simp [noParensTy] at h
  | arrayType t2 =>
      have hnp : noParensTy t2 = true := by simpa [noParensTy] using h
      rw [show rsmlTy (.arrayType t2) = .arrayType (rsmlVisit t2) from by rw [rsmlTy]]
      simp only [literalsTy]
      exact lits_rsmlVisit t2 hnp
  | typeLiteral ms =>
      have hnp : noParensElems ms = true := by simpa [noParensTy] using h
      rw [show rsmlTy (.typeLiteral ms) = .typeLiteral (rsmlElems ms) from by rw [rsmlTy]]
      simp only [literalsTy]
      exact lits_rsmlElems ms hnp
  | stringKeyword => simp [rsmlTy]
  | unknownKeyword => simp [rsmlTy]
  | otherKeyword k => simp [rsmlTy]
  | literalString s => simp [rsmlTy]
  | literalOther k => simp [rsmlTy]
  | typeReference n => simp [rsmlTy]
termination_by t => 2 * sizeOf t
decreasing_by
all_goals simp_wf
all_goals try subst_vars
all_goals try simp only [TypeNode.unionType.sizeOf_spec,
    TypeNode.intersectionType.sizeOf_spec, TypeNode.parenType.sizeOf_spec,
    TypeNode.arrayType.sizeOf_spec, TypeNode.typeLiteral.sizeOf_spec,
    List.cons.sizeOf_spec, Option.some.sizeOf_spec]
all_goals omega

/-- List version of `lits_rsmlVisit`. -/
theorem lits_rsmlTys : ∀ us, noParensTys us = true →
    literalsTys (rsmlTys us) = literalsTys us := fun us h => by
  cases us with
  | nil => rw [show rsmlTys [] = [] from by rw [rsmlTys]]
  | cons u us =>
      simp only [noParensTys, Bool.and_eq_true] at h
      rw [show rsmlTys (u :: us) = rsmlVisit u :: rsmlTys us from by rw [rsmlTys]]
      simp only [literalsTys]
      rw [lits_rsmlVisit u h.1, lits_rsmlTys us h.2]
termination_by us => 2 * sizeOf us
decreasing_by
all_goals simp_wf
all_goals try subst_vars
all_goals try simp only [List.cons.sizeOf_spec]
all_goals omega

/-- Member-list version of `lits_rsmlVisit`. -/
theorem lits_rsmlElems : ∀ ms, noParensElems ms = true →
    literalsElems (rsmlElems ms) = literalsElems ms := fun ms h => by
  cases ms with
  | nil => rw [show rsmlElems [] = [] from by rw [rsmlElems]]
  | cons e es =>
      simp only [noParensElems, Bool.and_eq_true] at h
      rw [show rsmlElems (e :: es) = rsmlElem e :: rsmlElems es from by rw [rsmlElems]]
      simp only [literalsElems]
      rw [lits_rsmlElem e h.1, lits_rsmlElems es h.2]
termination_by ms => 2 * sizeOf ms
decreasing_by
all_goals simp_wf
all_goals try subst_vars
all_goals try simp only [List.cons.sizeOf_spec]
all_goals omega

/-- Element version of `lits_rsmlVisit`. -/
theorem lits_rsmlElem : ∀ e, noParensElem e = true →
    literalsElem (rsmlElem e) = literalsElem e := fun e h => by
  cases e with
  | propertySignature n o ty =>
      cases ty with
      | none =>
          rw [show rsmlElem (.propertySignature n o none) =
              .propertySignature n o none from by rw [rsmlElem]; rw [rsmlOptTy]]
      | some t =>
          have hnp : noParensTy t = true := by simpa [noParensElem] using h
          rw [show rsmlElem (.propertySignature n o (some t)) =
              .propertySignature n o (some (rsmlVisit t)) from by
            rw [rsmlElem]; rw [rsmlOptTy]]
          simp only [literalsElem]
          exact lits_rsmlVisit t hnp
  | indexSignature ps ty =>
      simp only [noParensElem, Bool.and_eq_true] at h
      rw [show rsmlElem (.indexSignature ps ty) =
          .indexSignature (rsmlParams ps) (rsmlVisit ty) from by rw [rsmlElem]]
      simp only [literalsElem]
      rw [lits_rsmlParams ps h.1, lits_rsmlVisit ty h.2]
  | otherElement k =>
      rw [show rsmlElem (.otherElement k) = .otherElement k from by rw [rsmlElem]]
termination_by e => 2 * sizeOf e
decreasing_by
all_goals simp_wf
all_goals try subst_vars
all_goals try simp only [TypeElement.propertySignature.sizeOf_spec,
    TypeElement.indexSignature.sizeOf_spec, Option.some.sizeOf_spec]
all_goals omega

/-- Parameter version of `lits_rsmlVisit`. -/
theorem lits_rsmlParams : ∀ ps, noParensParams ps = true →
    literalsParams (rsmlParams ps) = literalsParams ps := fun ps h => by
  cases ps with
  | nil => rw [show rsmlParams [] = [] from by rw [rsmlParams]]
  | cons p ps =>
      cases p with
      | none =>
          have hnp : noParensParams ps = true := by simpa [noParensParams] using h
          rw [show rsmlParams (none :: ps) = none :: rsmlParams ps from by
            rw [rsmlParams]; rw [rsmlOptTy]]
          simp only [literalsParams]
          exact lits_rsmlParams ps hnp
      | some t =>
          simp only [noParensParams, Bool.and_eq_true] at h
          rw [show rsmlParams (some t :: ps) = some (rsmlVisit t) :: rsmlParams ps from by
            rw [rsmlParams]; rw [rsmlOptTy]]
          simp only [literalsParams]
          rw [lits_rsmlVisit t h.1, lits_rsmlParams ps h.2]
termination_by ps => 2 * sizeOf ps
decreasing_by
all_goals simp_wf
all_goals try subst_vars
all_goals try simp only [List.cons.sizeOf_spec, Option.some.sizeOf_spec]
all_goals omega

end

/-- Statement version of `clean_rsmlVisit`. -/
theorem clean_rsmlStmt (s : Statement) (h : noParensStmt s = true) :
    cleanStmt (rsmlStmt s) = true := by
  cases s with
  | typeAlias d m n tp ty =>
      simp only [noParensStmt] at h
      simp only [rsmlStmt, cleanStmt]
      exact clean_rsmlVisit ty h
  | interfaceDecl d m n tp hh ms =>
      simp only [noParensStmt] at h
      simp only [rsmlStmt, cleanStmt]
      exact clean_rsmlElems ms h
  | otherStatement k => rfl

/-- Statement version of `lits_rsmlVisit`. -/
theorem lits_rsmlStmt (s : Statement) (h : noParensStmt s = true) :
    literalsStmt (rsmlStmt s) = literalsStmt s := by
  cases s with
  | typeAlias d m n tp ty =>
      simp only [noParensStmt] at h
      simp only [rsmlStmt, literalsStmt]
      exact lits_rsmlVisit ty h
  | interfaceDecl d m n tp hh ms =>
      simp only [noParensStmt] at h
      simp only [rsmlStmt, literalsStmt]
      exact lits_rsmlElems ms h
  | otherStatement k => rfl

/-!
### Claim C2 — wide-string removal: the claim
-/

/-- C2, counterexample.  The member kind test of `removeWideStrings`
runs before parentheses are unwrapped, so in the union
`"a" | (string)` — which combines a string-literal member with an
unconstrained-`string` member wrapped in a parenthesized node, the
wrappers being transparent for detection — the pass unwraps the wide
string instead of removing it: the output union still combines the
literal with the unconstrained `string`. -/
theorem rsml_keeps_paren_wide_string :
    removeStringMergedWithStringLiterals
        ⟨[.typeAlias none none "T" none
            (.unionType [.literalString "a", .parenType .stringKeyword])]⟩ =
      ⟨[.typeAlias none none "T" none
          (.unionType [.literalString "a", .stringKeyword])]⟩ ∧
    ([TypeNode.literalString "a", .parenType .stringKeyword].any isLiteralStringNode &&
      [TypeNode.literalString "a", .parenType .stringKeyword].any isTransparentWideString)
        = true ∧
    cleanSF
        ⟨[.typeAlias none none "T" none
            (.unionType [.literalString "a", .stringKeyword])]⟩ = false := by
  refine ⟨?_, rfl, rfl⟩
  simp [removeStringMergedWithStringLiterals, rsmlStmt, rsmlVisit, rsmlTy, rsmlTys,
    intersectsWithStringLiteral, anyIntersectsWithStringLiteral, removeWideStrings,
    removeWideStringsMembers, isStringKeyword]

/-- C2, amended.  For every parenthesis-free input tree,
`removeStringMergedWithStringLiterals` yields a tree in which no union
or intersection node combines a string-literal member with an
unconstrained-`string` member — at every nesting depth — and every
string-literal member is retained.  (With parenthesized wrappers
present, a wrapped wide-string member is unwrapped in place by the pass
rather than removed, as the counterexample shows.) -/
theorem rsml_clean_spec (sf : SourceFile) (h : noParensSF sf = true) :
    cleanSF (removeStringMergedWithStringLiterals sf) = true ∧
    literalsSF (removeStringMergedWithStringLiterals sf) = literalsSF sf := by
  simp only [noParensSF, List.all_eq_true] at h
  constructor
  · simp only [cleanSF, removeStringMergedWithStringLiterals, List.all_eq_true]
    intro x hx
    obtain ⟨s, hs, rfl⟩ := List.mem_map.mp hx
    exact clean_rsmlStmt s (h s hs)
  · simp only [literalsSF, removeStringMergedWithStringLiterals]
    have haux : ∀ l : List Statement, (∀ s ∈ l, noParensStmt s = true) →
        (l.map rsmlStmt).flatMap literalsStmt = l.flatMap literalsStmt := by
      intro l
      induction l with
      | nil => intro _; rfl
      | cons s l ih =>
          intro hl
          simp only [List.map_cons, List.flatMap_cons]
          rw [lits_rsmlStmt s (hl s (by simp)), ih (fun s2 hs2 => hl s2 (by simp [hs2]))]
    exact haux sf.statements h

/-- Witness for `rsml_clean_spec` at a concrete source file. -/
theorem rsml_clean_spec_witness :
    cleanSF (removeStringMergedWithStringLiterals
        ⟨[.typeAlias none none "T" none
            (.unionType [.literalString "a", .stringKeyword])]⟩) = true :=
  (rsml_clean_spec
    ⟨[.typeAlias none none "T" none (.unionType [.literalString "a", .stringKeyword])]⟩
    (by decide)).1

/-!
### Claim C4 — determinism and idempotence of the composed pipeline

Helper predicates and lemmas.  `noIndexSigsTy` asserts that no
index-signature member occurs anywhere in a tree; on such trees the
record-removal and index-signature passes act as the identity on type
nodes, which isolates the interaction that breaks idempotence.
-/

mutual

/-- The tree contains no index-signature member anywhere. -/
def noIndexSigsTy : TypeNode → Bool
  | .unionType ts => noIndexSigsTys ts
  | .intersectionType ts => noIndexSigsTys ts
  | .parenType t => noIndexSigsTy t
  | .arrayType t => noIndexSigsTy t
  | .typeLiteral ms => noIndexSigsElems ms
  | _ => true

/-- List version of `noIndexSigsTy`. -/
def noIndexSigsTys : List TypeNode → Bool
  | [] => true
  | t :: ts => noIndexSigsTy t && noIndexSigsTys ts

/-- Member version of `noIndexSigsTy`. -/
def noIndexSigsElems : List TypeElement → Bool
  | [] => true
  | e :: es => noIndexSigsElem e && noIndexSigsElems es

/-- Element version of `noIndexSigsTy`. -/
def noIndexSigsElem : TypeElement → Bool
  | .propertySignature _ _ none => true
  | .propertySignature _ _ (some t) => noIndexSigsTy t
  | .indexSignature _ _ => false
  | .otherElement _ => true

end

/-- Statement version of `noIndexSigsTy`. -/
def noIndexSigsStmt : Statement → Bool
  | .typeAlias _ _ _ _ ty => noIndexSigsTy ty
  | .interfaceDecl _ _ _ _ _ ms => noIndexSigsElems ms
  | .otherStatement _ => true

/-- Source-file version of `noIndexSigsTy`. -/
def noIndexSigsSF (sf : SourceFile) : Bool :=
  sf.statements.all noIndexSigsStmt

/-- Without index signatures, no node matches the standalone-record
filter. -/
theorem isStandaloneStringRec_eq_false (t : TypeNode) (h : noIndexSigsTy t = true) :
    isStandaloneStringRec t = false := by
  cases t with
  | typeLiteral ms =>
      cases ms with
      | nil => rfl
      | cons e es =>
          cases e with
          | indexSignature ps ty =>
              simp [noIndexSigsTy, noIndexSigsElems, noIndexSigsElem] at h
          | propertySignature n o ty => cases es <;> rfl
          | otherElement k => cases es <;> rfl
  | unionType ts2 => rfl
  | intersectionType ts2 => rfl
  | parenType t2 => rfl
  | arrayType t2 => rfl
  | stringKeyword => rfl
  | unknownKeyword => rfl
  | otherKeyword k => rfl
  | literalString s => rfl
  | literalOther k => rfl
  | typeReference n => rfl

mutual

/-- With no index signatures there are no standalone records, so the
record-removal pass is the identity on type nodes. -/
theorem recs_id_ty : ∀ t, noIndexSigsTy t = true → removeRecsTy t = t
  | .unionType ts, h => by
      simp only [noIndexSigsTy] at h
      simp only [removeRecsTy]
      rw [recs_id_kept ts h]
  | .intersectionType ts, h => by
      simp only [noIndexSigsTy] at h
      simp only [removeRecsTy]
      rw [recs_id_tys ts h]
  | .parenType t, h => by
      simp only [noIndexSigsTy] at h
      simp only [removeRecsTy]
      rw [recs_id_ty t h]
  | .arrayType t, h => by
      simp only [noIndexSigsTy] at h
      simp only [removeRecsTy]
      rw [recs_id_ty t h]
  | .typeLiteral ms, h => by
      simp only [noIndexSigsTy] at h
      simp only [removeRecsTy]
      rw [recs_id_elems ms h]
  | .stringKeyword, _ => rfl
  | .unknownKeyword, _ => rfl
  | .otherKeyword _, _ => rfl
  | .literalString _, _ => rfl
  | .literalOther _, _ => rfl
  | .typeReference _, _ => rfl

/-- Union-member version of `recs_id_ty`: nothing is filtered. -/
theorem recs_id_kept : ∀ ts, noIndexSigsTys ts = true → removeRecsKept ts = ts
  | [], _ => rfl
  | t :: ts, h => by
      simp only [noIndexSigsTys, Bool.and_eq_true] at h
      have hrec : isStandaloneStringRec t = false := isStandaloneStringRec_eq_false t h.1
      simp only [removeRecsKept, hrec, Bool.false_eq_true, if_neg, not_false_eq_true]
      rw [recs_id_child t h.1, recs_id_kept ts h.2]

/-- Kept-member rebuild version of `recs_id_ty`. -/
theorem recs_id_child : ∀ t, noIndexSigsTy t = true → removeRecsChild t = t
  | .unionType ts, h => by
      simp only [noIndexSigsTy] at h
      simp only [removeRecsChild]
      rw [recs_id_tys ts h]
  | .intersectionType ts, h => by
      simp only [noIndexSigsTy] at h
      simp only [removeRecsChild]
      rw [recs_id_tys ts h]
  | .parenType t, h => by
      simp only [noIndexSigsTy] at h
      simp only [removeRecsChild]
      rw [recs_id_ty t h]
  | .arrayType t, h => by
      simp only [noIndexSigsTy] at h
      simp only [removeRecsChild]
      rw [recs_id_ty t h]
  | .typeLiteral ms, h => by
      simp only [noIndexSigsTy] at h
      simp only [removeRecsChild]
      rw [recs_id_elems ms h]
  | .stringKeyword, _ => rfl
  | .unknownKeyword, _ => rfl
  | .otherKeyword _, _ => rfl
  | .literalString _, _ => rfl
  | .literalOther _, _ => rfl
  | .typeReference _, _ => rfl

/-- List version of `recs_id_ty`. -/
theorem recs_id_tys : ∀ ts, noIndexSigsTys ts = true → removeRecsTys ts = ts
  | [], _ => rfl
  | t :: ts, h => by
      simp only [noIndexSigsTys, Bool.and_eq_true] at h
      simp only [removeRecsTys]
      rw [recs_id_ty t h.1, recs_id_tys ts h.2]

/-- Member-list version of `recs_id_ty`. -/
theorem recs_id_elems : ∀ ms, noIndexSigsElems ms = true → removeRecsElems ms = ms
  | [], _ => rfl
  | e :: es, h => by
      simp only [noIndexSigsElems, Bool.and_eq_true] at h
      simp only [removeRecsElems]
      rw [recs_id_elem e h.1, recs_id_elems es h.2]

/-- Element version of `recs_id_ty`. -/
theorem recs_id_elem : ∀ e, noIndexSigsElem e = true → removeRecsElem e = e
  | .propertySignature n o none, _ => rfl
  | .propertySignature n o (some t), h => by
      simp only [noIndexSigsElem] at h
      simp only [removeRecsElem, removeRecsOptTy]
      rw [recs_id_ty t h]
  | .indexSignature ps ty, h => by simp [noIndexSigsElem] at h
  | .otherElement _, _ => rfl

end

/-- Without index signatures, no member matches the drop test of
`removeUnknownIndexSignatures`. -/
theorem isUnknownStringIndexSig_eq_false (e : TypeElement) (h : noIndexSigsElem e = true) :
    isUnknownStringIndexSig e = false := by
  cases e with
  | indexSignature ps ty => simp [noIndexSigsElem] at h
  | propertySignature n o ty => cases ty <;> rfl
  | otherElement k => rfl

mutual

/-- With no index signatures, the index-signature pass's visitor is the
identity. -/
theorem uis_id_visit : ∀ t, noIndexSigsTy t = true → uisVisit t = t
  | .typeLiteral ms, h => by
      simp only [noIndexSigsTy] at h
      rw [show uisVisit (.typeLiteral ms) = .typeLiteral (uisFilterMembers ms 0 ms) from by
        rw [uisVisit]]
      rw [uis_id_filter ms 0 ms h]
  | .unionType ts, h => by
      rw [show uisVisit (.unionType ts) = uisTy (.unionType ts) from by rw [uisVisit] <;> simp]
      exact uis_id_ty _ h
  | .intersectionType ts, h => by
      rw [show uisVisit (.intersectionType ts) = uisTy (.intersectionType ts) from by
        rw [uisVisit] <;> simp]
      exact uis_id_ty _ h
  | .parenType t, h => by
      rw [show uisVisit (.parenType t) = uisTy (.parenType t) from by rw [uisVisit] <;> simp]
      exact uis_id_ty _ h
  | .arrayType t, h => by
      rw [show uisVisit (.arrayType t) = uisTy (.arrayType t) from by rw [uisVisit] <;> simp]
      exact uis_id_ty _ h
  | .stringKeyword, h => by
      rw [show uisVisit .stringKeyword = uisTy .stringKeyword from by rw [uisVisit] <;> simp]
      exact uis_id_ty _ h
  | .unknownKeyword, h => by
      rw [show uisVisit .unknownKeyword = uisTy .unknownKeyword from by rw [uisVisit] <;> simp]
      exact uis_id_ty _ h
  | .otherKeyword k, h => by
      rw [show uisVisit (.otherKeyword k) = uisTy (.otherKeyword k) from by rw [uisVisit] <;> simp]
      exact uis_id_ty _ h
  | .literalString s, h => by
      rw [show uisVisit (.literalString s) = uisTy (.literalString s) from by rw [uisVisit] <;> simp]
      exact uis_id_ty _ h
  | .literalOther k, h => by
      rw [show uisVisit (.literalOther k) = uisTy (.literalOther k) from by rw [uisVisit] <;> simp]
      exact uis_id_ty _ h
  | .typeReference n, h => by
      rw [show uisVisit (.typeReference n) = uisTy (.typeReference n) from by rw [uisVisit] <;> simp]
      exact uis_id_ty _ h

/-- With no index signatures, the index-signature pass is the identity
on type nodes. -/
theorem uis_id_ty : ∀ t, noIndexSigsTy t = true → uisTy t = t
  | .unionType ts, h => by
      simp only [noIndexSigsTy] at h
      rw [show uisTy (.unionType ts) = .unionType (uisTysVisit ts) from by rw [uisTy]]
      rw [uis_id_tysvisit ts h]
  | .intersectionType ts, h => by
      simp only [noIndexSigsTy] at h
      rw [show uisTy (.intersectionType ts) = .intersectionType (uisTysVisit ts) from by
        rw [uisTy]]
      rw [uis_id_tysvisit ts h]
  | .parenType t, h => by
      simp only [noIndexSigsTy] at h
      rw [show uisTy (.parenType t) = .parenType (uisVisit t) from by rw [uisTy]]
      rw [uis_id_visit t h]
  | .arrayType t, h => by
      simp only [noIndexSigsTy] at h
      rw [show uisTy (.arrayType t) = .arrayType (uisVisit t) from by rw [uisTy]]
      rw [uis_id_visit t h]
  | .typeLiteral ms, h => by
      simp only [noIndexSigsTy] at h
      rw [show uisTy (.typeLiteral ms) = .typeLiteral (uisElems ms) from by rw [uisTy]]
      rw [uis_id_elems ms h]
  | .stringKeyword, _ => by rw [uisTy] <;> simp
  | .unknownKeyword, _ => by rw [uisTy] <;> simp
  | .otherKeyword _, _ => by rw [uisTy] <;> simp
  | .literalString _, _ => by rw [uisTy] <;> simp
  | .literalOther _, _ => by rw [uisTy] <;> simp
  | .typeReference _, _ => by rw [uisTy] <;> simp

/-- List version of `uis_id_visit`. -/
theorem uis_id_tysvisit : ∀ ts, noIndexSigsTys ts = true → uisTysVisit ts = ts
  | [], _ => by rw [uisTysVisit]
  | t :: ts, h => by
      simp only [noIndexSigsTys, Bool.and_eq_true] at h
      rw [show uisTysVisit (t :: ts) = uisVisit t :: uisTysVisit ts from by rw [uisTysVisit]]
      rw [uis_id_visit t h.1, uis_id_tysvisit ts h.2]

/-- With no index signatures, the filtering `reduce` keeps every member
unchanged. -/
theorem uis_id_filter :
    ∀ (orig : List TypeElement) (i : Nat) (es : List TypeElement),
      noIndexSigsElems es = true → uisFilterMembers orig i es = es
  | _, _, [], _ => by rw [uisFilterMembers]
  | orig, i, e :: es, h => by
      simp only [noIndexSigsElems, Bool.and_eq_true] at h
      rw [uisFilterMembers_cons, isUnknownStringIndexSig_eq_false e h.1]
      simp only [Bool.false_and, Bool.false_eq_true, if_neg, not_false_eq_true]
      rw [uis_id_elem e h.1, uis_id_filter orig (i + 1) es h.2]

/-- Member-list version of `uis_id_ty`. -/
theorem uis_id_elems : ∀ ms, noIndexSigsElems ms = true → uisElems ms = ms
  | [], _ => by rw [uisElems]
  | e :: es, h => by
      simp only [noIndexSigsElems, Bool.and_eq_true] at h
      rw [show uisElems (e :: es) = uisElem e :: uisElems es from by rw [uisElems]]
      rw [uis_id_elem e h.1, uis_id_elems es h.2]

/-- Element version of `uis_id_ty`. -/
theorem uis_id_elem : ∀ e, noIndexSigsElem e = true → uisElem e = e
  | .propertySignature n o none, _ => by
      rw [show uisElem (.propertySignature n o none) = .propertySignature n o none from by
        rw [uisElem]; rw [uisOptTy]]
  | .propertySignature n o (some t), h => by
      simp only [noIndexSigsElem] at h
      rw [show uisElem (.propertySignature n o (some t)) =
          .propertySignature n o (some (uisVisit t)) from by rw [uisElem]; rw [uisOptTy]]
      rw [uis_id_visit t h]
  | .indexSignature ps ty, h => by simp [noIndexSigsElem] at h
  | .otherElement k, _ => by rw [uisElem]

end

mutual

/-- `removeWideStrings` only drops members and unwraps parentheses, so
it preserves absence of index signatures. -/
theorem noIndexSigs_rws : ∀ t, noIndexSigsTy t = true →
    noIndexSigsTy (removeWideStrings t) = true
  | .unionType ts, h => by
      simp only [noIndexSigsTy] at h
      simp only [removeWideStrings, noIndexSigsTy]
      exact noIndexSigs_rwsMembers ts h
  | .intersectionType ts, h => by
      simp only [noIndexSigsTy] at h
      simp only [removeWideStrings, noIndexSigsTy]
      exact noIndexSigs_rwsMembers ts h
  | .parenType t, h => by
      simp only [noIndexSigsTy] at h
      simp only [removeWideStrings]
      exact noIndexSigs_rws t h
  | .arrayType t, h => by simpa [removeWideStrings] using h
  | .typeLiteral ms, h => by simpa [removeWideStrings] using h
  | .stringKeyword, h => h
  | .unknownKeyword, h => h
  | .otherKeyword _, h => h
  | .literalString _, h => h
  | .literalOther _, h => h
  | .typeReference _, h => h

/-- List version of `noIndexSigs_rws`. -/
theorem noIndexSigs_rwsMembers : ∀ ts, noIndexSigsTys ts = true →
    noIndexSigsTys (removeWideStringsMembers ts) = true
  | [], _ => rfl
  | t :: ts, h => by
      simp only [noIndexSigsTys, Bool.and_eq_true] at h
      by_cases hs : isStringKeyword t
      · simp only [removeWideStringsMembers, hs, if_pos]
        exact noIndexSigs_rwsMembers ts h.2
      · simp only [Bool.not_eq_true] at hs
        simp only [removeWideStringsMembers, hs, Bool.false_eq_true, if_neg,
          not_false_eq_true, noIndexSigsTys, Bool.and_eq_true]
        exact ⟨noIndexSigs_rws t h.1, noIndexSigs_rwsMembers ts h.2⟩

end

mutual

/-- The wide-string pass's visitor preserves absence of index
signatures. -/
theorem noIndexSigs_rsmlVisit : ∀ t, noIndexSigsTy t = true →
    noIndexSigsTy (rsmlVisit t) = true := fun t h => by
  by_cases hc : intersectsWithStringLiteral t
  · rw [show rsmlVisit t = rsmlTy (removeWideStrings t) from by simp [rsmlVisit, hc]]
    have hsz := removeWideStrings_size t
    exact noIndexSigs_rsmlTy (removeWideStrings t) (noIndexSigs_rws t h)
  · rw [show rsmlVisit t = rsmlTy t from by simp [rsmlVisit, hc]]
    exact noIndexSigs_rsmlTy t h
termination_by t => 2 * sizeOf t + 1
decreasing_by
all_goals simp_wf
all_goals omega

/-- The wide-string pass preserves absence of index signatures. -/
theorem noIndexSigs_rsmlTy : ∀ t, noIndexSigsTy t = true →
    noIndexSigsTy (rsmlTy t) = true := fun t h => by
  cases t with
  | unionType ts =>
      have hnp : noIndexSigsTys ts = true := by simpa [noIndexSigsTy] using h
      rw [show rsmlTy (.unionType ts) = .unionType (rsmlTys ts) from by rw [rsmlTy]]
      simp only [noIndexSigsTy]
      exact noIndexSigs_rsmlTys ts hnp
  | intersectionType ts =>
      have hnp : noIndexSigsTys ts = true := by simpa [noIndexSigsTy] using h
      rw [show rsmlTy (.intersectionType ts) = .intersectionType (rsmlTys ts) from by
        rw [rsmlTy]]
      simp only [noIndexSigsTy]
      exact noIndexSigs_rsmlTys ts hnp
  | parenType t2 =>
      have hnp : noIndexSigsTy t2 = true := by simpa [noIndexSigsTy] using h
      rw [show rsmlTy (.parenType t2) = .parenType (rsmlVisit t2) from by rw [rsmlTy]]
      simp only [noIndexSigsTy]
      exact noIndexSigs_rsmlVisit t2 hnp
  | arrayType t2 =>
      have hnp : noIndexSigsTy t2 = true := by simpa [noIndexSigsTy] using h
      rw [show rsmlTy (.arrayType t2) = .arrayType (rsmlVisit t2) from by rw [rsmlTy]]
      simp only [noIndexSigsTy]
      exact noIndexSigs_rsmlVisit t2 hnp
  | typeLiteral ms =>
      have hnp : noIndexSigsElems ms = true := by simpa [noIndexSigsTy] using h
      rw [show rsmlTy (.typeLiteral ms) = .typeLiteral (rsmlElems ms) from by rw [rsmlTy]]
      simp only [noIndexSigsTy]
      exact noIndexSigs_rsmlElems ms hnp
  | stringKeyword => simp [rsmlTy, noIndexSigsTy]
  | unknownKeyword => simp [rsmlTy, noIndexSigsTy]
  | otherKeyword k => simp [rsmlTy, noIndexSigsTy]
  | literalString s => simp [rsmlTy, noIndexSigsTy]
  | literalOther k => simp [rsmlTy, noIndexSigsTy]
  | typeReference n => simp [rsmlTy, noIndexSigsTy]
termination_by t => 2 * sizeOf t
decreasing_by
all_goals simp_wf
all_goals try subst_vars
all_goals try simp only [TypeNode.unionType.sizeOf_spec,
    TypeNode.intersectionType.sizeOf_spec, TypeNode.parenType.sizeOf_spec,
    TypeNode.arrayType.sizeOf_spec, TypeNode.typeLiteral.sizeOf_spec,
    List.cons.sizeOf_spec, Option.some.sizeOf_spec]
all_goals omega

/-- List version of `noIndexSigs_rsmlVisit`. -/
theorem noIndexSigs_rsmlTys : ∀ us, noIndexSigsTys us = true →
    noIndexSigsTys (rsmlTys us) = true := fun us h => by
  cases us with
  | nil => rw [show rsmlTys [] = [] from by rw [rsmlTys]]; rfl
  | cons u us =>
      simp only [noIndexSigsTys, Bool.and_eq_true] at h
      rw [show rsmlTys (u :: us) = rsmlVisit u :: rsmlTys us from by rw [rsmlTys]]
      simp only [noIndexSigsTys, Bool.and_eq_true]
      exact ⟨noIndexSigs_rsmlVisit u h.1, noIndexSigs_rsmlTys us h.2⟩
termination_by us => 2 * sizeOf us
decreasing_by
all_goals simp_wf
all_goals try subst_vars
all_goals try simp only [List.cons.sizeOf_spec]
all_goals omega

/-- Member-list version of `noIndexSigs_rsmlVisit`. -/
theorem noIndexSigs_rsmlElems : ∀ ms, noIndexSigsElems ms = true →
    noIndexSigsElems (rsmlElems ms) = true := fun ms h => by
  cases ms with
  | nil => rw [show rsmlElems [] = [] from by rw [rsmlElems]]; rfl
  | cons e es =>
      simp only [noIndexSigsElems, Bool.and_eq_true] at h
      rw [show rsmlElems (e :: es) = rsmlElem e :: rsmlElems es from by rw [rsmlElems]]
      simp only [noIndexSigsElems, Bool.and_eq_true]
      exact ⟨noIndexSigs_rsmlElem e h.1, noIndexSigs_rsmlElems es h.2⟩
termination_by ms => 2 * sizeOf ms
decreasing_by
all_goals simp_wf
all_goals try subst_vars
all_goals try simp only [List.cons.sizeOf_spec]
all_goals omega

/-- Element version of `noIndexSigs_rsmlVisit`. -/
theorem noIndexSigs_rsmlElem : ∀ e, noIndexSigsElem e = true →
    noIndexSigsElem (rsmlElem e) = true := fun e h => by
  cases e with
  | propertySignature n o ty =>
      cases ty with
      | none =>
          rw [show rsmlElem (.propertySignature n o none) =
              .propertySignature n o none from by rw [rsmlElem]; rw [rsmlOptTy]]
          rfl
      | some t =>
          have hnp : noIndexSigsTy t = true := by simpa [noIndexSigsElem] using h
          rw [show rsmlElem (.propertySignature n o (some t)) =
              .propertySignature n o (some (rsmlVisit t)) from by
            rw [rsmlElem]; rw [rsmlOptTy]]
          simp only [noIndexSigsElem]
          exact noIndexSigs_rsmlVisit t hnp
  | indexSignature ps ty => simp [noIndexSigsElem] at h
  | otherElement k =>
      rw [show rsmlElem (.otherElement k) = .otherElement k from by rw [rsmlElem]]
      rfl
termination_by e => 2 * sizeOf e
decreasing_by
all_goals simp_wf
all_goals try subst_vars
all_goals try simp only [TypeElement.propertySignature.sizeOf_spec,
    Option.some.sizeOf_spec]
all_goals omega

end

mutual

/-- `removeWideStrings` preserves the string-literal intersection test:
it removes only `string`-keyword members (which never satisfy the test)
and unwraps parentheses (which are transparent to the test). -/
theorem iwsl_rws : ∀ t, intersectsWithStringLiteral (removeWideStrings t) =
    intersectsWithStringLiteral t
  | .unionType ts => by
      simp only [removeWideStrings, intersectsWithStringLiteral]
      exact iwsl_rwsMembers ts
  | .intersectionType ts => by
      simp only [removeWideStrings, intersectsWithStringLiteral]
      exact iwsl_rwsMembers ts
  | .parenType t => by
      simp only [removeWideStrings, intersectsWithStringLiteral]
      exact iwsl_rws t
  | .arrayType _ => rfl
  | .typeLiteral _ => rfl
  | .stringKeyword => rfl
  | .unknownKeyword => rfl
  | .otherKeyword _ => rfl
  | .literalString _ => rfl
  | .literalOther _ => rfl
  | .typeReference _ => rfl

/-- List version of `iwsl_rws`. -/
theorem iwsl_rwsMembers : ∀ ts,
    anyIntersectsWithStringLiteral (removeWideStringsMembers ts) =
      anyIntersectsWithStringLiteral ts
  | [] => rfl
  | t :: ts => by
      by_cases hs : isStringKeyword t
      · have ht : t = .stringKeyword := by cases t <;> simp_all [isStringKeyword]
        subst ht
        simp only [removeWideStringsMembers, isStringKeyword, if_pos,
          anyIntersectsWithStringLiteral, intersectsWithStringLiteral, Bool.false_or]
        exact iwsl_rwsMembers ts
      · simp only [Bool.not_eq_true] at hs
        simp only [removeWideStringsMembers, hs, Bool.false_eq_true, if_neg,
          not_false_eq_true, anyIntersectsWithStringLiteral]
        rw [iwsl_rws t, iwsl_rwsMembers ts]

end

mutual

/-- The wide-string pass's visitor preserves the string-literal
intersection test on parenthesis-free nodes. -/
theorem iwsl_rsmlVisit : ∀ t, noParensTy t = true →
    intersectsWithStringLiteral (rsmlVisit t) = intersectsWithStringLiteral t :=
    fun t h => by
  by_cases hc : intersectsWithStringLiteral t
  · rw [show rsmlVisit t = rsmlTy (removeWideStrings t) from by simp [rsmlVisit, hc]]
    have hsz := removeWideStrings_size t
    rw [iwsl_rsmlTy (removeWideStrings t) (noParens_rws t h)]
    exact iwsl_rws t
  · rw [show rsmlVisit t = rsmlTy t from by simp [rsmlVisit, hc]]
    exact iwsl_rsmlTy t h
termination_by t => 2 * sizeOf t + 1
decreasing_by
all_goals simp_wf
all_goals omega

/-- The wide-string pass preserves the string-literal intersection test
on parenthesis-free nodes. -/
theorem iwsl_rsmlTy : ∀ t, noParensTy t = true →
    intersectsWithStringLiteral (rsmlTy t) = intersectsWithStringLiteral t :=
    fun t h => by
  cases t with
  | unionType ts =>
      have hnp : noParensTys ts = true := by simpa [noParensTy] using h
      rw [show rsmlTy (.unionType ts) = .unionType (rsmlTys ts) from by rw [rsmlTy]]
      simp only [intersectsWithStringLiteral]
      exact iwsl_rsmlTys ts hnp
  | intersectionType ts =>
      have hnp : noParensTys ts = true := by simpa [noParensTy] using h
      rw [show rsmlTy (.intersectionType ts) = .intersectionType (rsmlTys ts) from by
        rw [rsmlTy]]
      simp only [intersectsWithStringLiteral]
      exact iwsl_rsmlTys ts hnp
  | parenType t2 => simp [noParensTy] at h
  | arrayType t2 =>
      rw [show rsmlTy (.arrayType t2) = .arrayType (rsmlVisit t2) from by rw [rsmlTy]]
      rfl
  | typeLiteral ms =>
      rw [show rsmlTy (.typeLiteral ms) = .typeLiteral (rsmlElems ms) from by rw [rsmlTy]]
      rfl
  | stringKeyword => simp [rsmlTy]
  | unknownKeyword => simp [rsmlTy]
  | otherKeyword k => simp [rsmlTy]
  | literalString s => simp [rsmlTy]
  | literalOther k => simp [rsmlTy]
  | typeReference n => simp [rsmlTy]
termination_by t => 2 * sizeOf t
decreasing_by
all_goals simp_wf
all_goals try subst_vars
all_goals try simp only [TypeNode.unionType.sizeOf_spec,
    TypeNode.intersectionType.sizeOf_spec, List.cons.sizeOf_spec]
all_goals omega

/-- List version of `iwsl_rsmlVisit`. -/
theorem iwsl_rsmlTys : ∀ us, noParensTys us = true →
    anyIntersectsWithStringLiteral (rsmlTys us) = anyIntersectsWithStringLiteral us :=
    fun us h => by
  cases us with
  | nil => rw [show rsmlTys [] = [] from by rw [rsmlTys]]
  | cons u us =>
      simp only [noParensTys, Bool.and_eq_true] at h
      rw [show rsmlTys (u :: us) = rsmlVisit u :: rsmlTys us from by rw [rsmlTys]]
      simp only [anyIntersectsWithStringLiteral]
      rw [iwsl_rsmlVisit u h.1, iwsl_rsmlTys us h.2]
termination_by us => 2 * sizeOf us
decreasing_by
all_goals simp_wf
all_goals try subst_vars
all_goals try simp only [List.cons.sizeOf_spec]
all_goals omega

end

mutual

/-- The spine of the tree — the union and intersection nodes reachable
through union and intersection members only — carries no direct
`string`-keyword member.  `removeWideStrings` reads exactly this part
of the tree, so on parenthesis-free trees it is the identity precisely
on spine-clean trees. -/
def spineCleanTy : TypeNode → Bool
  | .unionType ts => ts.all (fun m => !isStringKeyword m) && spineCleanTys ts
  | .intersectionType ts => ts.all (fun m => !isStringKeyword m) && spineCleanTys ts
  | _ => true

/-- List version of `spineCleanTy`. -/
def spineCleanTys : List TypeNode → Bool
  | [] => true
  | t :: ts => spineCleanTy t && spineCleanTys ts

end

mutual

/-- `removeWideStrings` produces a spine-clean tree on parenthesis-free
input. -/
theorem spineClean_rws : ∀ t, noParensTy t = true →
    spineCleanTy (removeWideStrings t) = true
  | .unionType ts, h => by
      simp only [noParensTy] at h
      simp only [removeWideStrings, spineCleanTy, Bool.and_eq_true]
      refine ⟨?_, spineClean_rwsMembers ts h⟩
      have := rwsMembers_no_string ts h
      simpa [List.all_eq_not_any_not] using this
  | .intersectionType ts, h => by
      simp only [noParensTy] at h
      simp only [removeWideStrings, spineCleanTy, Bool.and_eq_true]
      refine ⟨?_, spineClean_rwsMembers ts h⟩
      have := rwsMembers_no_string ts h
      simpa [List.all_eq_not_any_not] using this
  | .parenType t, h => by simp [noParensTy] at h
  | .arrayType t, _ => rfl
  | .typeLiteral ms, _ => rfl
  | .stringKeyword, _ => rfl
  | .unknownKeyword, _ => rfl
  | .otherKeyword _, _ => rfl
  | .literalString _, _ => rfl
  | .literalOther _, _ => rfl
  | .typeReference _, _ => rfl

/-- List version of `spineClean_rws`. -/
theorem spineClean_rwsMembers : ∀ ts, noParensTys ts = true →
    spineCleanTys (removeWideStringsMembers ts) = true
  | [], _ => rfl
  | t :: ts, h => by
      simp only [noParensTys, Bool.and_eq_true] at h
      by_cases hs : isStringKeyword t
      · simp only [removeWideStringsMembers, hs, if_pos]
        exact spineClean_rwsMembers ts h.2
      · simp only [Bool.not_eq_true] at hs
        simp only [removeWideStringsMembers, hs, Bool.false_eq_true, if_neg,
          not_false_eq_true, spineCleanTys, Bool.and_eq_true]
        exact ⟨spineClean_rws t h.1, spineClean_rwsMembers ts h.2⟩

end

mutual

/-- On a parenthesis-free, spine-clean tree, `removeWideStrings` is the
identity. -/
theorem rws_id_of_spineClean : ∀ t, noParensTy t = true → spineCleanTy t = true →
    removeWideStrings t = t
  | .unionType ts, h, hc => by
      simp only [noParensTy] at h
      simp only [spineCleanTy, Bool.and_eq_true] at hc
      simp only [removeWideStrings]
      rw [rwsMembers_id_of_spineClean ts h hc.1 hc.2]
  | .intersectionType ts, h, hc => by
      simp only [noParensTy] at h
      simp only [spineCleanTy, Bool.and_eq_true] at hc
      simp only [removeWideStrings]
      rw [rwsMembers_id_of_spineClean ts h hc.1 hc.2]
  | .parenType t, h, _ => by simp [noParensTy] at h
  | .arrayType t, _, _ => rfl
  | .typeLiteral ms, _, _ => rfl
  | .stringKeyword, _, _ => rfl
  | .unknownKeyword, _, _ => rfl
  | .otherKeyword _, _, _ => rfl
  | .literalString _, _, _ => rfl
  | .literalOther _, _, _ => rfl
  | .typeReference _, _, _ => rfl

/-- List version of `rws_id_of_spineClean`. -/
theorem rwsMembers_id_of_spineClean :
    ∀ ts, noParensTys ts = true → ts.all (fun m => !isStringKeyword m) = true →
      spineCleanTys ts = true → removeWideStringsMembers ts = ts
  | [], _, _, _ => rfl
  | t :: ts, h, hstr, hc => by
      simp only [noParensTys, Bool.and_eq_true] at h
      simp only [List.all_cons, Bool.and_eq_true, Bool.not_eq_true'] at hstr
      simp only [spineCleanTys, Bool.and_eq_true] at hc
      simp only [removeWideStringsMembers, hstr.1, Bool.false_eq_true, if_neg,
        not_false_eq_true]
      rw [rws_id_of_spineClean t h.1 hc.1, rwsMembers_id_of_spineClean ts h.2 hstr.2 hc.2]

end

mutual

/-- The visitor of the wide-string pass sends parenthesis-free
spine-clean nodes to spine-clean nodes. -/
theorem spineClean_rsmlVisit : ∀ t, noParensTy t = true → spineCleanTy t = true →
    spineCleanTy (rsmlVisit t) = true := fun t h hc => by
  by_cases hw : intersectsWithStringLiteral t
  · rw [show rsmlVisit t = rsmlTy (removeWideStrings t) from by simp [rsmlVisit, hw]]
    rw [rws_id_of_spineClean t h hc]
    exact spineClean_rsmlTy t h hc
  · rw [show rsmlVisit t = rsmlTy t from by simp [rsmlVisit, hw]]
    exact spineClean_rsmlTy t h hc
termination_by t => 2 * sizeOf t + 1
decreasing_by
all_goals simp_wf
all_goals omega

/-- The wide-string pass sends parenthesis-free spine-clean trees to
spine-clean trees. -/
theorem spineClean_rsmlTy : ∀ t, noParensTy t = true → spineCleanTy t = true →
    spineCleanTy (rsmlTy t) = true := fun t h hc => by
  cases t with
  | unionType ts =>
      have hnp : noParensTys ts = true := by simpa [noParensTy] using h
      simp only [spineCleanTy, Bool.and_eq_true] at hc
      rw [show rsmlTy (.unionType ts) = .unionType (rsmlTys ts) from by rw [rsmlTy]]
      simp only [spineCleanTy, Bool.and_eq_true]
      constructor
      · have hk := rsmlTys_any_kind ts hnp
        have : (rsmlTys ts).any isStringKeyword = false := by
          rw [hk.1]
          simpa [List.all_eq_not_any_not] using hc.1
        simpa [List.all_eq_not_any_not] using this
      · exact spineClean_rsmlTys ts hnp hc.2
  | intersectionType ts =>
      have hnp : noParensTys ts = true := by simpa [noParensTy] using h
      simp only [spineCleanTy, Bool.and_eq_true] at hc
      rw [show rsmlTy (.intersectionType ts) = .intersectionType (rsmlTys ts) from by
        rw [rsmlTy]]
      simp only [spineCleanTy, Bool.and_eq_true]
      constructor
      · have hk := rsmlTys_any_kind ts hnp
        have : (rsmlTys ts).any isStringKeyword = false := by
          rw [hk.1]
          simpa [List.all_eq_not_any_not] using hc.1
        simpa [List.all_eq_not_any_not] using this
      · exact spineClean_rsmlTys ts hnp hc.2
  | parenType t2 => simp [noParensTy] at h
  | arrayType t2 =>
      rw [show rsmlTy (.arrayType t2) = .arrayType (rsmlVisit t2) from by rw [rsmlTy]]
      rfl
  | typeLiteral ms =>
      rw [show rsmlTy (.typeLiteral ms) = .typeLiteral (rsmlElems ms) from by rw [rsmlTy]]
      rfl
  | stringKeyword => simp [rsmlTy, spineCleanTy]
  | unknownKeyword => simp [rsmlTy, spineCleanTy]
  | otherKeyword k => simp [rsmlTy, spineCleanTy]
  | literalString s => simp [rsmlTy, spineCleanTy]
  | literalOther k => simp [rsmlTy, spineCleanTy]
  | typeReference n => simp [rsmlTy, spineCleanTy]
termination_by t => 2 * sizeOf t
decreasing_by
all_goals simp_wf
all_goals try subst_vars
all_goals try simp only [TypeNode.unionType.sizeOf_spec,
    TypeNode.intersectionType.sizeOf_spec, List.cons.sizeOf_spec]
all_goals omega

/-- List version of `spineClean_rsmlVisit`. -/
theorem spineClean_rsmlTys : ∀ us, noParensTys us = true → spineCleanTys us = true →
    spineCleanTys (rsmlTys us) = true := fun us h hc => by
  cases us with
  | nil => rw [show rsmlTys [] = [] from by rw [rsmlTys]]; rfl
  | cons u us =>
      simp only [noParensTys, Bool.and_eq_true] at h
      simp only [spineCleanTys, Bool.and_eq_true] at hc
      rw [show rsmlTys (u :: us) = rsmlVisit u :: rsmlTys us from by rw [rsmlTys]]
      simp only [spineCleanTys, Bool.and_eq_true]
      exact ⟨spineClean_rsmlVisit u h.1 hc.1, spineClean_rsmlTys us h.2 hc.2⟩
termination_by us => 2 * sizeOf us
decreasing_by
all_goals simp_wf
all_goals try subst_vars
all_goals try simp only [List.cons.sizeOf_spec]
all_goals omega

end

mutual

/-- The wide-string pass's visitor never creates parenthesized nodes. -/
theorem noParens_rsmlVisit : ∀ t, noParensTy t = true →
    noParensTy (rsmlVisit t) = true := fun t h => by
  by_cases hc : intersectsWithStringLiteral t
  · rw [show rsmlVisit t = rsmlTy (removeWideStrings t) from by simp [rsmlVisit, hc]]
    have hsz := removeWideStrings_size t
    exact noParens_rsmlTy (removeWideStrings t) (noParens_rws t h)
  · rw [show rsmlVisit t = rsmlTy t from by simp [rsmlVisit, hc]]
    exact noParens_rsmlTy t h
termination_by t => 2 * sizeOf t + 1
decreasing_by
all_goals simp_wf
all_goals omega

/-- The wide-string pass never creates parenthesized nodes. -/
theorem noParens_rsmlTy : ∀ t, noParensTy t = true →
    noParensTy (rsmlTy t) = true := fun t h => by
  cases t with
  | unionType ts =>
      have hnp : noParensTys ts = true := by simpa [noParensTy] using h
      rw [show rsmlTy (.unionType ts) = .unionType (rsmlTys ts) from by rw [rsmlTy]]
      simp only [noParensTy]
      exact noParens_rsmlTys ts hnp
  | intersectionType ts =>
      have hnp : noParensTys ts = true := by simpa [noParensTy] using h
      rw [show rsmlTy (.intersectionType ts) = .intersectionType (rsmlTys ts) from by
        rw [rsmlTy]]
      simp only [noParensTy]
      exact noParens_rsmlTys ts hnp
  | parenType t2 => simp [noParensTy] at h
  | arrayType t2 =>
      have hnp : noParensTy t2 = true := by simpa [noParensTy] using h
      rw [show rsmlTy (.arrayType t2) = .arrayType (rsmlVisit t2) from by rw [rsmlTy]]
      simp only [noParensTy]
      exact noParens_rsmlVisit t2 hnp
  | typeLiteral ms =>
      have hnp : noParensElems ms = true := by simpa [noParensTy] using h
      rw [show rsmlTy (.typeLiteral ms) = .typeLiteral (rsmlElems ms) from by rw [rsmlTy]]
      simp only [noParensTy]
      exact noParens_rsmlElems ms hnp
  | stringKeyword => simp [rsmlTy, noParensTy]
  | unknownKeyword => simp [rsmlTy, noParensTy]
  | otherKeyword k => simp [rsmlTy, noParensTy]
  | literalString s => simp [rsmlTy, noParensTy]
  | literalOther k => simp [rsmlTy, noParensTy]
  | typeReference n => simp [rsmlTy, noParensTy]
termination_by t => 2 * sizeOf t
decreasing_by
all_goals simp_wf
all_goals try subst_vars
all_goals try simp only [TypeNode.unionType.sizeOf_spec,
    TypeNode.intersectionType.sizeOf_spec, TypeNode.parenType.sizeOf_spec,
    TypeNode.arrayType.sizeOf_spec, TypeNode.typeLiteral.sizeOf_spec,
    List.cons.sizeOf_spec, Option.some.sizeOf_spec]
all_goals omega

/-- List version of `noParens_rsmlVisit`. -/
theorem noParens_rsmlTys : ∀ us, noParensTys us = true →
    noParensTys (rsmlTys us) = true := fun us h => by
  cases us with
  | nil => rw [show rsmlTys [] = [] from by rw [rsmlTys]]; rfl
  | cons u us =>
      simp only [noParensTys, Bool.and_eq_true] at h
      rw [show rsmlTys (u :: us) = rsmlVisit u :: rsmlTys us from by rw [rsmlTys]]
      simp only [noParensTys, Bool.and_eq_true]
      exact ⟨noParens_rsmlVisit u h.1, noParens_rsmlTys us h.2⟩
termination_by us => 2 * sizeOf us
decreasing_by
all_goals simp_wf
all_goals try subst_vars
all_goals try simp only [List.cons.sizeOf_spec]
all_goals omega

/-- Member-list version of `noParens_rsmlVisit`. -/
theorem noParens_rsmlElems : ∀ ms, noParensElems ms = true →
    noParensElems (rsmlElems ms) = true := fun ms h => by
  cases ms with
  | nil => rw [show rsmlElems [] = [] from by rw [rsmlElems]]; rfl
  | cons e es =>
      simp only [noParensElems, Bool.and_eq_true] at h
      rw [show rsmlElems (e :: es) = rsmlElem e :: rsmlElems es from by rw [rsmlElems]]
      simp only [noParensElems, Bool.and_eq_true]
      exact ⟨noParens_rsmlElem e h.1, noParens_rsmlElems es h.2⟩
termination_by ms => 2 * sizeOf ms
decreasing_by
all_goals simp_wf
all_goals try subst_vars
all_goals try simp only [List.cons.sizeOf_spec]
all_goals omega

/-- Element version of `noParens_rsmlVisit`. -/
theorem noParens_rsmlElem : ∀ e, noParensElem e = true →
    noParensElem (rsmlElem e) = true := fun e h => by
  cases e with
  | propertySignature n o ty =>
      cases ty with
      | none =>
          rw [show rsmlElem (.propertySignature n o none) =
              .propertySignature n o none from by rw [rsmlElem]; rw [rsmlOptTy]]
          rfl
      | some t =>
          have hnp : noParensTy t = true := by simpa [noParensElem] using h
          rw [show rsmlElem (.propertySignature n o (some t)) =
              .propertySignature n o (some (rsmlVisit t)) from by
            rw [rsmlElem]; rw [rsmlOptTy]]
          simp only [noParensElem]
          exact noParens_rsmlVisit t hnp
  | indexSignature ps ty =>
      simp only [noParensElem, Bool.and_eq_true] at h
      rw [show rsmlElem (.indexSignature ps ty) =
          .indexSignature (rsmlParams ps) (rsmlVisit ty) from by rw [rsmlElem]]
      simp only [noParensElem, Bool.and_eq_true]
      exact ⟨noParens_rsmlParams ps h.1, noParens_rsmlVisit ty h.2⟩
  | otherElement k =>
      rw [show rsmlElem (.otherElement k) = .otherElement k from by rw [rsmlElem]]
      rfl
termination_by e => 2 * sizeOf e
decreasing_by
all_goals simp_wf
all_goals try subst_vars
all_goals try simp only [TypeElement.propertySignature.sizeOf_spec,
    TypeElement.indexSignature.sizeOf_spec, Option.some.sizeOf_spec]
all_goals omega

/-- Parameter version of `noParens_rsmlVisit`. -/
theorem noParens_rsmlParams : ∀ ps, noParensParams ps = true →
    noParensParams (rsmlParams ps) = true := fun ps h => by
  cases ps with
  | nil => rw [show rsmlParams [] = [] from by rw [rsmlParams]]; rfl
  | cons p ps =>
      cases p with
      | none =>
          have hnp : noParensParams ps = true := by simpa [noParensParams] using h
          rw [show rsmlParams (none :: ps) = none :: rsmlParams ps from by
            rw [rsmlParams]; rw [rsmlOptTy]]
          simp only [noParensParams]
          exact noParens_rsmlParams ps hnp
      | some t =>
          simp only [noParensParams, Bool.and_eq_true] at h
          rw [show rsmlParams (some t :: ps) = some (rsmlVisit t) :: rsmlParams ps from by
            rw [rsmlParams]; rw [rsmlOptTy]]
          simp only [noParensParams, Bool.and_eq_true]
          exact ⟨noParens_rsmlVisit t h.1, noParens_rsmlParams ps h.2⟩
termination_by ps => 2 * sizeOf ps
decreasing_by
all_goals simp_wf
all_goals try subst_vars
all_goals try simp only [List.cons.sizeOf_spec, Option.some.sizeOf_spec]
all_goals omega

end

mutual

/-- On parenthesis-free input the visitor of
`removeStringMergedWithStringLiterals` is idempotent: the first
application removes every wide string its recursion can see, and its
output is spine-clean, so `removeWideStrings` is the identity on it. -/
theorem rsmlVisit_idem : ∀ t, noParensTy t = true →
    rsmlVisit (rsmlVisit t) = rsmlVisit t := fun t h => by
  by_cases hw : intersectsWithStringLiteral t
  · have hstep : rsmlVisit t = rsmlTy (removeWideStrings t) := by simp [rsmlVisit, hw]
    have hnpu : noParensTy (removeWideStrings t) = true := noParens_rws t h
    have hscu : spineCleanTy (removeWideStrings t) = true := spineClean_rws t h
    have hnpO : noParensTy (rsmlTy (removeWideStrings t)) = true :=
      noParens_rsmlTy (removeWideStrings t) hnpu
    have hscO : spineCleanTy (rsmlTy (removeWideStrings t)) = true :=
      spineClean_rsmlTy (removeWideStrings t) hnpu hscu
    have hiwO : intersectsWithStringLiteral (rsmlTy (removeWideStrings t)) = true := by
      rw [iwsl_rsmlTy (removeWideStrings t) hnpu, iwsl_rws t]
      exact hw
    have hsz := removeWideStrings_size t
    rw [hstep]
    rw [show rsmlVisit (rsmlTy (removeWideStrings t)) =
        rsmlTy (removeWideStrings (rsmlTy (removeWideStrings t))) from by
      simp [rsmlVisit, hiwO]]
    rw [rws_id_of_spineClean (rsmlTy (removeWideStrings t)) hnpO hscO]
    exact rsmlTy_idem (removeWideStrings t) hnpu
  · have hstep : rsmlVisit t = rsmlTy t := by simp [rsmlVisit, hw]
    have hiwO : intersectsWithStringLiteral (rsmlTy t) = false := by
      rw [iwsl_rsmlTy t h]
      simpa using hw
    rw [hstep]
    rw [show rsmlVisit (rsmlTy t) = rsmlTy (rsmlTy t) from by simp [rsmlVisit, hiwO]]
    exact rsmlTy_idem t h
termination_by t => 2 * sizeOf t + 1
decreasing_by
all_goals simp_wf
all_goals omega

/-- On parenthesis-free input the wide-string pass is idempotent. -/
theorem rsmlTy_idem : ∀ t, noParensTy t = true →
    rsmlTy (rsmlTy t) = rsmlTy t := fun t h => by
  cases t with
  | unionType ts =>
      have hnp : noParensTys ts = true := by simpa [noParensTy] using h
      rw [show rsmlTy (.unionType ts) = .unionType (rsmlTys ts) from by rw [rsmlTy]]
      rw [show rsmlTy (.unionType (rsmlTys ts)) = .unionType (rsmlTys (rsmlTys ts)) from by
        rw [rsmlTy]]
      rw [rsmlTys_idem ts hnp]
  | intersectionType ts =>
      have hnp : noParensTys ts = true := by simpa [noParensTy] using h
      rw [show rsmlTy (.intersectionType ts) = .intersectionType (rsmlTys ts) from by
        rw [rsmlTy]]
      rw [show rsmlTy (.intersectionType (rsmlTys ts)) =
          .intersectionType (rsmlTys (rsmlTys ts)) from by rw [rsmlTy]]
      rw [rsmlTys_idem ts hnp]
  | parenType t2 => simp [noParensTy] at h
  | arrayType t2 =>
      have hnp : noParensTy t2 = true := by simpa [noParensTy] using h
      rw [show rsmlTy (.arrayType t2) = .arrayType (rsmlVisit t2) from by rw [rsmlTy]]
      rw [show rsmlTy (.arrayType (rsmlVisit t2)) =
          .arrayType (rsmlVisit (rsmlVisit t2)) from by rw [rsmlTy]]
      rw [rsmlVisit_idem t2 hnp]
  | typeLiteral ms =>
      have hnp : noParensElems ms = true := by simpa [noParensTy] using h
      rw [show rsmlTy (.typeLiteral ms) = .typeLiteral (rsmlElems ms) from by rw [rsmlTy]]
      rw [show rsmlTy (.typeLiteral (rsmlElems ms)) =
          .typeLiteral (rsmlElems (rsmlElems ms)) from by rw [rsmlTy]]
      rw [rsmlElems_idem ms hnp]
  | stringKeyword => simp [rsmlTy]
  | unknownKeyword => simp [rsmlTy]
  | otherKeyword k => simp [rsmlTy]
  | literalString s => simp [rsmlTy]
  | literalOther k => simp [rsmlTy]
  | typeReference n => simp [rsmlTy]
termination_by t => 2 * sizeOf t
decreasing_by
all_goals simp_wf
all_goals try subst_vars
all_goals try simp only [TypeNode.unionType.sizeOf_spec,
    TypeNode.intersectionType.sizeOf_spec, TypeNode.parenType.sizeOf_spec,
    TypeNode.arrayType.sizeOf_spec, TypeNode.typeLiteral.sizeOf_spec,
    List.cons.sizeOf_spec, Option.some.sizeOf_spec]
all_goals omega

/-- List version of `rsmlVisit_idem`. -/
theorem rsmlTys_idem : ∀ us, noParensTys us = true →
    rsmlTys (rsmlTys us) = rsmlTys us := fun us h => by
  cases us with
  | nil => rw [show rsmlTys [] = [] from by rw [rsmlTys]]; rw [show rsmlTys [] = [] from by
      rw [rsmlTys]]
  | cons u us =>
      simp only [noParensTys, Bool.and_eq_true] at h
      rw [show rsmlTys (u :: us) = rsmlVisit u :: rsmlTys us from by rw [rsmlTys]]
      rw [show rsmlTys (rsmlVisit u :: rsmlTys us) =
          rsmlVisit (rsmlVisit u) :: rsmlTys (rsmlTys us) from by rw [rsmlTys]]
      rw [rsmlVisit_idem u h.1, rsmlTys_idem us h.2]
termination_by us => 2 * sizeOf us
decreasing_by
all_goals simp_wf
all_goals try subst_vars
all_goals try simp only [List.cons.sizeOf_spec]
all_goals omega

/-- Member-list version of `rsmlVisit_idem`. -/
theorem rsmlElems_idem : ∀ ms, noParensElems ms = true →
    rsmlElems (rsmlElems ms) = rsmlElems ms := fun ms h => by
  cases ms with
  | nil => rw [show rsmlElems [] = [] from by rw [rsmlElems]]; rw [show rsmlElems [] = []
      from by rw [rsmlElems]]
  | cons e es =>
      simp only [noParensElems, Bool.and_eq_true] at h
      rw [show rsmlElems (e :: es) = rsmlElem e :: rsmlElems es from by rw [rsmlElems]]
      rw [show rsmlElems (rsmlElem e :: rsmlElems es) =
          rsmlElem (rsmlElem e) :: rsmlElems (rsmlElems es) from by rw [rsmlElems]]
      rw [rsmlElem_idem e h.1, rsmlElems_idem es h.2]
termination_by ms => 2 * sizeOf ms
decreasing_by
all_goals simp_wf
all_goals try subst_vars
all_goals try simp only [List.cons.sizeOf_spec]
all_goals omega

/-- Element version of `rsmlVisit_idem`. -/
theorem rsmlElem_idem : ∀ e, noParensElem e = true →
    rsmlElem (rsmlElem e) = rsmlElem e := fun e h => by
  cases e with
  | propertySignature n o ty =>
      cases ty with
      | none =>
          rw [show rsmlElem (.propertySignature n o none) =
              .propertySignature n o none from by rw [rsmlElem]; rw [rsmlOptTy]]
          rw [show rsmlElem (.propertySignature n o none) =
              .propertySignature n o none from by rw [rsmlElem]; rw [rsmlOptTy]]
      | some t =>
          have hnp : noParensTy t = true := by simpa [noParensElem] using h
          rw [show rsmlElem (.propertySignature n o (some t)) =
              .propertySignature n o (some (rsmlVisit t)) from by
            rw [rsmlElem]; rw [rsmlOptTy]]
          rw [show rsmlElem (.propertySignature n o (some (rsmlVisit t))) =
              .propertySignature n o (some (rsmlVisit (rsmlVisit t))) from by
            rw [rsmlElem]; rw [rsmlOptTy]]
          rw [rsmlVisit_idem t hnp]
  | indexSignature ps ty =>
      simp only [noParensElem, Bool.and_eq_true] at h
      rw [show rsmlElem (.indexSignature ps ty) =
          .indexSignature (rsmlParams ps) (rsmlVisit ty) from by rw [rsmlElem]]
      rw [show rsmlElem (.indexSignature (rsmlParams ps) (rsmlVisit ty)) =
          .indexSignature (rsmlParams (rsmlParams ps)) (rsmlVisit (rsmlVisit ty)) from by
        rw [rsmlElem]]
      rw [rsmlParams_idem ps h.1, rsmlVisit_idem ty h.2]
  | otherElement k =>
      rw [show rsmlElem (.otherElement k) = .otherElement k from by rw [rsmlElem]]
      rw [show rsmlElem (.otherElement k) = .otherElement k from by rw [rsmlElem]]
termination_by e => 2 * sizeOf e
decreasing_by
all_goals simp_wf
all_goals try subst_vars
all_goals try simp only [TypeElement.propertySignature.sizeOf_spec,
    TypeElement.indexSignature.sizeOf_spec, Option.some.sizeOf_spec]
all_goals omega

/-- Parameter version of `rsmlVisit_idem`. -/
theorem rsmlParams_idem : ∀ ps, noParensParams ps = true →
    rsmlParams (rsmlParams ps) = rsmlParams ps := fun ps h => by
  cases ps with
  | nil => rw [show rsmlParams [] = [] from by rw [rsmlParams]]; rw [show rsmlParams [] = []
      from by rw [rsmlParams]]
  | cons p ps =>
      cases p with
      | none =>
          have hnp : noParensParams ps = true := by simpa [noParensParams] using h
          rw [show rsmlParams (none :: ps) = none :: rsmlParams ps from by
            rw [rsmlParams]; rw [rsmlOptTy]]
          rw [show rsmlParams (none :: rsmlParams ps) =
              none :: rsmlParams (rsmlParams ps) from by rw [rsmlParams]; rw [rsmlOptTy]]
          rw [rsmlParams_idem ps hnp]
      | some t =>
          simp only [noParensParams, Bool.and_eq_true] at h
          rw [show rsmlParams (some t :: ps) = some (rsmlVisit t) :: rsmlParams ps from by
            rw [rsmlParams]; rw [rsmlOptTy]]
          rw [show rsmlParams (some (rsmlVisit t) :: rsmlParams ps) =
              some (rsmlVisit (rsmlVisit t)) :: rsmlParams (rsmlParams ps) from by
            rw [rsmlParams]; rw [rsmlOptTy]]
          rw [rsmlVisit_idem t h.1, rsmlParams_idem ps h.2]
termination_by ps => 2 * sizeOf ps
decreasing_by
all_goals simp_wf
all_goals try subst_vars
all_goals try simp only [List.cons.sizeOf_spec, Option.some.sizeOf_spec]
all_goals omega

end

/-- The `src/action.ts` pipeline acts statement-wise. -/
def pipelineStmtPlain (s : Statement) : Statement :=
  uisStmtStrip (rsmlStmt (removeRecsStmt (renameStmtPlain s)))

/-- The `src/action.ts` pipeline is the statement-wise map of its
per-statement composite. -/
theorem pipelinePlain_map (sf : SourceFile) :
    pipelinePlain sf = ⟨sf.statements.map pipelineStmtPlain⟩ := by
  simp [pipelinePlain, removeUnknownIndexSignaturesStrip,
    removeStringMergedWithStringLiterals, removeStandaloneUnknownRecsInUnions,
    renameTsconfigTypeAndRemoveOtherExports, List.map_map, pipelineStmtPlain,
    Function.comp]

/-- Statement-level idempotence of the `src/action.ts` pipeline on
parenthesis-free, index-signature-free statements. -/
theorem pipelineStmtPlain_idem (s : Statement) (hp : noParensStmt s = true)
    (hi : noIndexSigsStmt s = true) :
    pipelineStmtPlain (pipelineStmtPlain s) = pipelineStmtPlain s := by
  cases s with
  | typeAlias d m n tp ty =>
      simp only [noParensStmt] at hp
      simp only [noIndexSigsStmt] at hi
      have h1 : pipelineStmtPlain (.typeAlias d m n tp ty) =
          .typeAlias d m "Tsconfig" tp (rsmlVisit ty) := by
        simp only [pipelineStmtPlain, renameStmtPlain, removeRecsStmt, recs_id_ty ty hi,
          rsmlStmt, uisStmtStrip]
        rw [uis_id_visit (rsmlVisit ty) (noIndexSigs_rsmlVisit ty hi)]
      rw [h1]
      simp only [pipelineStmtPlain, renameStmtPlain, removeRecsStmt,
        recs_id_ty (rsmlVisit ty) (noIndexSigs_rsmlVisit ty hi), rsmlStmt, uisStmtStrip]
      rw [rsmlVisit_idem ty hp]
      rw [uis_id_visit (rsmlVisit ty) (noIndexSigs_rsmlVisit ty hi)]
  | interfaceDecl d m n tp hh ms =>
      simp only [noParensStmt] at hp
      simp only [noIndexSigsStmt] at hi
      have h1 : pipelineStmtPlain (.interfaceDecl d m n tp hh ms) =
          .interfaceDecl none none n none none (rsmlElems ms) := by
        simp only [pipelineStmtPlain, renameStmtPlain, removeRecsStmt,
          recs_id_elems ms hi, rsmlStmt, uisStmtStrip, uisMembers]
        rw [uis_id_filter _ 0 _ (noIndexSigs_rsmlElems ms hi)]
      rw [h1]
      simp only [pipelineStmtPlain, renameStmtPlain, Option.map_none, removeRecsStmt,
        recs_id_elems (rsmlElems ms) (noIndexSigs_rsmlElems ms hi), rsmlStmt,
        uisStmtStrip, uisMembers]
      rw [rsmlElems_idem ms hp]
      rw [uis_id_filter _ 0 _ (noIndexSigs_rsmlElems ms hi)]
  | otherStatement k => rfl

/-!
### Claim C4 — the claim
-/

/-- C4, counterexample.  The composed `src/action.ts` pipeline is not
idempotent: a parenthesized wide string inside a union is unwrapped by
the first run (the kind test of `removeWideStrings` precedes the
unwrap) and removed only by the second, so the pipeline applied to its
own output differs from a single application. -/
theorem pipelinePlain_not_idempotent :
    pipelinePlain
        ⟨[.typeAlias none none "T" none
            (.unionType [.literalString "a", .parenType .stringKeyword])]⟩ =
      ⟨[.typeAlias none none "Tsconfig" none
          (.unionType [.literalString "a", .stringKeyword])]⟩ ∧
    pipelinePlain
        (pipelinePlain
          ⟨[.typeAlias none none "T" none
              (.unionType [.literalString "a", .parenType .stringKeyword])]⟩) =
      ⟨[.typeAlias none none "Tsconfig" none (.unionType [.literalString "a"])]⟩ ∧
    pipelinePlain
        (pipelinePlain
          ⟨[.typeAlias none none "T" none
              (.unionType [.literalString "a", .parenType .stringKeyword])]⟩) ≠
      pipelinePlain
        ⟨[.typeAlias none none "T" none
            (.unionType [.literalString "a", .parenType .stringKeyword])]⟩ := by
  have h1 : pipelinePlain
      ⟨[.typeAlias none none "T" none
          (.unionType [.literalString "a", .parenType .stringKeyword])]⟩ =
      ⟨[.typeAlias none none "Tsconfig" none
          (.unionType [.literalString "a", .stringKeyword])]⟩ := by
    simp [pipelinePlain, renameTsconfigTypeAndRemoveOtherExports, renameStmtPlain,
      removeStandaloneUnknownRecsInUnions, removeRecsStmt, removeRecsTy, removeRecsKept,
      removeRecsChild, removeRecsTys, isStandaloneStringRec,
      removeStringMergedWithStringLiterals, rsmlStmt, rsmlVisit, rsmlTy, rsmlTys,
      intersectsWithStringLiteral, anyIntersectsWithStringLiteral, removeWideStrings,
      removeWideStringsMembers, isStringKeyword, removeUnknownIndexSignaturesStrip,
      uisStmtStrip, uisVisit, uisTy, uisTysVisit]
  have h2 : pipelinePlain
      ⟨[.typeAlias none none "Tsconfig" none
          (.unionType [.literalString "a", .stringKeyword])]⟩ =
      ⟨[.typeAlias none none "Tsconfig" none (.unionType [.literalString "a"])]⟩ := by
    simp [pipelinePlain, renameTsconfigTypeAndRemoveOtherExports, renameStmtPlain,
      removeStandaloneUnknownRecsInUnions, removeRecsStmt, removeRecsTy, removeRecsKept,
      removeRecsChild, removeRecsTys, isStandaloneStringRec,
      removeStringMergedWithStringLiterals, rsmlStmt, rsmlVisit, rsmlTy, rsmlTys,
      intersectsWithStringLiteral, anyIntersectsWithStringLiteral, removeWideStrings,
      removeWideStringsMembers, isStringKeyword, removeUnknownIndexSignaturesStrip,
      uisStmtStrip, uisVisit, uisTy, uisTysVisit]
  refine ⟨h1, by rw [h1, h2], ?_⟩
  rw [h1, h2]
  simp

/-- C4, amended.  Each pipeline is a pure function, so repeated runs on
equal inputs give equal outputs; but the composed transform is not
idempotent in general: the `src/action.ts` pipeline rewrites its own
output again when parenthesized wide strings occur (counterexample),
and the `$schema`-injecting configuration prepends a new `$schema`
member on every run.  For input trees containing no parenthesized type
nodes and no index-signature members, the `src/action.ts` pipeline
applied to its own output does equal a single application. -/
theorem pipelinePlain_idem_restricted (sf : SourceFile) (hp : noParensSF sf = true)
    (hi : noIndexSigsSF sf = true) :
    pipelinePlain (pipelinePlain sf) = pipelinePlain sf := by
  simp only [noParensSF, List.all_eq_true] at hp
  simp only [noIndexSigsSF, List.all_eq_true] at hi
  rw [pipelinePlain_map sf, pipelinePlain_map]
  simp only [List.map_map, SourceFile.mk.injEq]
  exact List.map_congr_left fun s hs =>
    pipelineStmtPlain_idem s (hp s hs) (hi s hs)

/-- Witness for `pipelinePlain_idem_restricted` at a concrete source
file. -/
theorem pipelinePlain_idem_restricted_witness :
    pipelinePlain (pipelinePlain
        ⟨[.typeAlias none none "T" none
            (.unionType [.literalString "a", .stringKeyword])]⟩) =
      pipelinePlain
        ⟨[.typeAlias none none "T" none
            (.unionType [.literalString "a", .stringKeyword])]⟩ :=
  pipelinePlain_idem_restricted
    ⟨[.typeAlias none none "T" none (.unionType [.literalString "a", .stringKeyword])]⟩
    (by decide) (by decide)

end TsconfigType
